import Mathlib

/-!
Formal model of the `retrospect` live audio looper core, shallowly embedded
from the C++ sources (`src/core/RingBuffer.{h,cpp}`, `src/core/Metronome.{h,cpp}`,
`src/core/Loop.{h,cpp}`, `src/core/LoopEngine.{h,cpp}`).

Conventions of the embedding:
* C++ `double`/`float` arithmetic is modelled exactly over `ℚ` (the code never
  relies on rounding of binary floating point for the properties studied here).
* C++ `int`/`int64_t` values are modelled as `ℤ`, or as `ℕ` where the value is
  nonnegative in every reachable state (write cursors, totals, counts).
* `std::floor` on a rational is `Rat.floor`; `std::round` (half away from zero)
  is `roundQ` below.  C++ `int64_t` division/modulo truncate toward zero and are
  modelled with `Int.tdiv`/`Int.tmod`; on the nonnegative values arising in
  reachable states these agree with Euclidean division.
* Log strings emitted through `onMessage`/`lastMessage_` are modelled by the
  inductive `LogMsg` (the formatted text itself carries no program logic).
-/

namespace Retrospect

/-- Model of C `std::round`: round half away from zero. -/
def roundQ (x : ℚ) : ℤ :=
  if 0 ≤ x then ⌊x + 1/2⌋ else -⌊-x + 1/2⌋

/-- Quantization boundary for operations (`Quantize` in `core/Metronome.h`). -/
inductive Quantize
  | Free
  | Beat
  | Bar
deriving DecidableEq

/-! ## RingBuffer (`core/RingBuffer.h` + `core/RingBuffer.cpp`)

The buffer is a fixed-length list of samples plus a write cursor and a count of
samples written.  `writePos` and `totalWritten` are nonnegative `int64_t` in the
C++ code and are modelled as `ℕ`. -/

structure RingBuffer where
  buffer : List ℚ
  writePos : ℕ
  totalWritten : ℕ
deriving DecidableEq

namespace RingBuffer

/-- Constructor `RingBuffer(capacitySamples)`: zero-filled buffer. -/
def mk' (capacitySamples : ℕ) : RingBuffer :=
  { buffer := List.replicate capacitySamples 0, writePos := 0, totalWritten := 0 }

/-- Accessor `capacity()`. -/
def capacity (rb : RingBuffer) : ℕ := rb.buffer.length

/-- Accessor `available() = min(totalWritten, capacity)`. -/
def available (rb : RingBuffer) : ℕ := min rb.totalWritten rb.capacity

/-- `RingBuffer::write(data, numSamples)`.  Mirrors the three cases of the C++
code: early return on empty input; input at least as large as the capacity
keeps only the tail and resets the cursor; otherwise the data is copied at the
cursor, wrapping once past the end. -/
def write (rb : RingBuffer) (data : List ℚ) : RingBuffer :=
  let n := data.length
  if n = 0 then rb
  else
    let cap := rb.capacity
    if cap ≤ n then
      { buffer := data.drop (n - cap), writePos := 0, totalWritten := rb.totalWritten + n }
    else
      let spaceToEnd := cap - rb.writePos
      let buffer' :=
        if n ≤ spaceToEnd then
          rb.buffer.take rb.writePos ++ data ++ rb.buffer.drop (rb.writePos + n)
        else
          let firstPass := rb.buffer.take rb.writePos ++ data.take spaceToEnd
          data.drop spaceToEnd ++ firstPass.drop (n - spaceToEnd)
      { buffer := buffer', writePos := (rb.writePos + n) % cap,
        totalWritten := rb.totalWritten + n }

/-- `RingBuffer::readFromPast(dest, numSamples, samplesAgo)`: returns the list
written into `dest` (length `numSamples`).  `samplesAgo` is clamped to
`available`; a missing prefix is zero-filled; wrap-around reads copy in two
segments.  All call sites pass nonnegative `samplesAgo`, modelled as `ℕ`. -/
def readFromPast (rb : RingBuffer) (numSamples samplesAgo : ℕ) : List ℚ :=
  if numSamples = 0 then []
  else
    let cap := rb.capacity
    let avail := rb.available
    let ago := min samplesAgo avail
    let zeroCount := numSamples - ago
    let m := min numSamples ago
    let readStart := (rb.writePos + 2 * cap - ago) % cap
    let spaceToEnd := cap - readStart
    let readPart :=
      if m ≤ spaceToEnd then (rb.buffer.drop readStart).take m
      else (rb.buffer.drop readStart) ++ rb.buffer.take (m - spaceToEnd)
    List.replicate zeroCount 0 ++ readPart

/-- `RingBuffer::readMostRecent(dest, numSamples)`. -/
def readMostRecent (rb : RingBuffer) (numSamples : ℕ) : List ℚ :=
  rb.readFromPast numSamples numSamples

/-- `RingBuffer::clear()`. -/
def clear (rb : RingBuffer) : RingBuffer :=
  { buffer := List.replicate rb.buffer.length 0, writePos := 0, totalWritten := 0 }

/-- Well-formedness invariant of every reachable ring buffer: positive capacity
and a cursor strictly inside the buffer. -/
def wf (rb : RingBuffer) : Prop :=
  0 < rb.capacity ∧ rb.writePos < rb.capacity

end RingBuffer

/-! ## Loop (`core/Loop.h` + `core/Loop.cpp`)

The layer/undo/redo/pending structure is embedded in full.  Of the
time-stretch machinery only the scalar state that the engine's control paths
touch is kept (`stretchRawPos`, `stretchBufRead`, `stretchBufAvail`, and a
`stretcherConfigured` flag standing for the `unique_ptr<TimeStretcher>`); the
stretch sample buffers themselves are only read by the playback path, which is
outside the scope of this model. -/

inductive LoopState
  | Empty
  | Playing
  | Muted
  | Recording
deriving DecidableEq

structure LoopLayer where
  audio : List ℚ
  gain : ℚ
  active : Bool
deriving DecidableEq

inductive UndoDirection
  | Undo
  | Redo
deriving DecidableEq

structure PendingTimedOp where
  executeSample : ℤ
  quantize : Quantize
deriving DecidableEq

structure PendingUndo where
  executeSample : ℤ
  quantize : Quantize
  count : ℤ
  direction : UndoDirection
deriving DecidableEq

structure PendingSpeed where
  executeSample : ℤ
  quantize : Quantize
  speed : ℚ
deriving DecidableEq

structure PendingCapture where
  executeSample : ℤ
  quantize : Quantize
  lookbackSamples : ℤ
deriving DecidableEq

inductive MuteOp
  | Mute
  | Unmute
  | Toggle
deriving DecidableEq

inductive OverdubOp
  | Start
  | Stop
deriving DecidableEq

inductive RecordOp
  | Start
  | Stop
deriving DecidableEq

/-- Per-loop pending state (`struct PendingState` in `core/Loop.h`): one
independently-assignable slot per operation family. -/
structure PendingState where
  mute : Option PendingTimedOp
  overdub : Option PendingTimedOp
  reverse : Option PendingTimedOp
  undo : Option PendingUndo
  speed : Option PendingSpeed
  clear : Option PendingTimedOp
  capture : Option PendingCapture
  record : Option PendingTimedOp
  muteOp : MuteOp
  overdubOp : OverdubOp
  recordOp : RecordOp
deriving DecidableEq

namespace PendingState

/-- Default-constructed `PendingState`. -/
def init : PendingState :=
  { mute := none, overdub := none, reverse := none, undo := none, speed := none,
    clear := none, capture := none, record := none,
    muteOp := MuteOp.Toggle, overdubOp := OverdubOp.Start, recordOp := RecordOp.Start }

/-- `PendingState::hasAny()`. -/
def hasAny (ps : PendingState) : Bool :=
  ps.mute.isSome || ps.overdub.isSome || ps.reverse.isSome || ps.undo.isSome ||
  ps.speed.isSome || ps.clear.isSome || ps.capture.isSome || ps.record.isSome

/-- `PendingState::clearAll()`: resets every optional slot (the `muteOp` /
`overdubOp` / `recordOp` selectors are plain enums and are not reset). -/
def clearAll (ps : PendingState) : PendingState :=
  { ps with mute := none, overdub := none, reverse := none, undo := none,
            speed := none, clear := none, capture := none, record := none }

end PendingState

structure Loop where
  layers : List LoopLayer
  state : LoopState
  loopLength : ℤ
  playPos : ℤ
  reversed : Bool
  speed : ℚ
  fractionalPos : ℚ
  crossfadeSamples : ℤ
  lengthInBars : ℚ
  id : ℤ
  pending : PendingState
  recordedBpm : ℚ
  currentBpm : ℚ
  sampleRate : ℚ
  stretcherConfigured : Bool
  stretchBufRead : ℤ
  stretchBufAvail : ℤ
  stretchRawPos : ℤ
deriving DecidableEq

namespace Loop

/-- Default-constructed `Loop` (the C++ member initializers). -/
def init : Loop :=
  { layers := [], state := LoopState.Empty, loopLength := 0, playPos := 0,
    reversed := false, speed := 1, fractionalPos := 0, crossfadeSamples := 256,
    lengthInBars := 0, id := -1, pending := PendingState.init,
    recordedBpm := 0, currentBpm := 0, sampleRate := 44100,
    stretcherConfigured := false, stretchBufRead := 0, stretchBufAvail := 0,
    stretchRawPos := 0 }

/-- `Loop::clear()`: drops all layers and resets playback and stretch state;
`recordedBpm_` is zeroed, `currentBpm_`, `crossfadeSamples_`, `id_` and the
pending slots are untouched. -/
def clear (lp : Loop) : Loop :=
  { lp with layers := [], state := LoopState.Empty, loopLength := 0, playPos := 0,
            fractionalPos := 0, reversed := false, speed := 1, lengthInBars := 0,
            stretcherConfigured := false, stretchBufRead := 0, stretchBufAvail := 0,
            stretchRawPos := 0, recordedBpm := 0 }

/-- `Loop::loadFromCapture(audio)`: clear, then install `audio` as the base
layer and start playing; stretch resources are (re)configured. -/
def loadFromCapture (lp : Loop) (audio : List ℚ) : Loop :=
  { lp.clear with
      loopLength := (audio.length : ℤ),
      layers := [{ audio := audio, gain := 1, active := true }],
      state := LoopState.Playing, playPos := 0, fractionalPos := 0,
      stretcherConfigured := true, stretchBufRead := 0, stretchBufAvail := 0,
      stretchRawPos := 0 }

/-- `Loop::addLayer(audio)`: appends a layer resized (zero-extended or
truncated) to the loop length; no-op on an empty loop. -/
def addLayer (lp : Loop) (audio : List ℚ) : Loop :=
  if lp.loopLength = 0 then lp
  else
    let resized := (audio.take lp.loopLength.toNat) ++
      List.replicate (lp.loopLength.toNat - audio.length) 0
    { lp with layers := lp.layers ++ [{ audio := resized, gain := 1, active := true }] }

/-- Helper for `Loop::undoLayer`: deactivate the first active layer of a list
(the loop from index `size-1` down to `1` deactivates the last active non-base
layer, i.e. the first active element of the reversed tail). -/
def deactivateFirstActive : List LoopLayer → List LoopLayer
  | [] => []
  | l :: ls =>
    if l.active then { l with active := false } :: ls
    else l :: deactivateFirstActive ls

/-- Helper for `Loop::redoLayer`: activate the first inactive layer of a list
(the loop from index `1` upward activates the earliest inactive layer). -/
def activateFirstInactive : List LoopLayer → List LoopLayer
  | [] => []
  | l :: ls =>
    if !l.active then { l with active := true } :: ls
    else l :: activateFirstInactive ls

/-- `Loop::undoLayer()`: deactivate the most recent active non-base layer. -/
def undoLayer (lp : Loop) : Loop :=
  match lp.layers with
  | [] => lp
  | base :: rest =>
    { lp with layers := base :: (deactivateFirstActive rest.reverse).reverse }

/-- `Loop::redoLayer()`: reactivate the earliest inactive non-base layer. -/
def redoLayer (lp : Loop) : Loop :=
  match lp.layers with
  | [] => lp
  | base :: rest =>
    { lp with layers := base :: activateFirstInactive rest }

/-- `Loop::play()`. -/
def play (lp : Loop) : Loop :=
  if lp.state ≠ LoopState.Empty then { lp with state := LoopState.Playing } else lp

/-- `Loop::mute()`. -/
def mute (lp : Loop) : Loop :=
  if lp.state ≠ LoopState.Empty then { lp with state := LoopState.Muted } else lp

/-- `Loop::toggleMute()`. -/
def toggleMute (lp : Loop) : Loop :=
  if lp.state = LoopState.Playing then { lp with state := LoopState.Muted }
  else if lp.state = LoopState.Muted then { lp with state := LoopState.Playing }
  else lp

/-- `Loop::startOverdub()`: appends a zero-filled layer of the loop length and
enters `Recording`; no-op on an empty loop. -/
def startOverdub (lp : Loop) : Loop :=
  if lp.state = LoopState.Empty ∨ lp.loopLength = 0 then lp
  else
    { lp with
        layers := lp.layers ++
          [{ audio := List.replicate lp.loopLength.toNat 0, gain := 1, active := true }],
        state := LoopState.Recording }

/-- `Loop::stopOverdub()`. -/
def stopOverdub (lp : Loop) : Loop :=
  if lp.state = LoopState.Recording then { lp with state := LoopState.Playing } else lp

/-- `Loop::toggleReverse()`. -/
def toggleReverse (lp : Loop) : Loop :=
  { lp with reversed := !lp.reversed }

/-- `Loop::setSpeed(spd)`: clamps to `[0.25, 4.0]`. -/
def setSpeed (lp : Loop) (spd : ℚ) : Loop :=
  { lp with speed := max (1/4) (min spd 4) }

/-- `Loop::isTimeStretchActive()`. -/
def isTimeStretchActive (lp : Loop) : Bool :=
  lp.state ≠ LoopState.Empty && lp.recordedBpm > 0 && lp.currentBpm > 0 &&
  |lp.currentBpm - lp.recordedBpm| > 1/2

/-- `Loop::setCurrentBpm(bpm)`: updates `currentBpm_` and handles the
direct/stretched mode transitions. -/
def setCurrentBpm (lp : Loop) (bpm : ℚ) : Loop :=
  let wasActive := lp.isTimeStretchActive
  let lp1 := { lp with currentBpm := bpm }
  let nowActive := lp1.isTimeStretchActive
  if !wasActive && nowActive then
    { lp1 with stretchRawPos := lp1.playPos, stretchBufRead := 0,
               stretchBufAvail := 0, fractionalPos := 0 }
  else if wasActive && !nowActive then
    { lp1 with playPos := lp1.stretchRawPos % lp1.loopLength, fractionalPos := 0 }
  else lp1

/-- `Loop::setCrossfadeSamples`. -/
def setCrossfadeSamples (lp : Loop) (samples : ℤ) : Loop :=
  { lp with crossfadeSamples := samples }

/-- `Loop::activeLayerCount()`. -/
def activeLayerCount (lp : Loop) : ℕ :=
  (lp.layers.filter (·.active)).length

/-- List of the `active` flags of the layers, in order (the "set of active
layers" of a loop whose layers are fixed in position). -/
def activeFlags (lp : Loop) : List Bool :=
  lp.layers.map (·.active)

end Loop

/-! ## Metronome — derived-position phrasing (`core/Metronome.h` + the
`Metronome.cpp` variant whose `position()` derives bar/beat/fraction from
`totalSamples_`; this is the variant whose member usage matches the in-tree
header).  Beat/bar callbacks are modelled by returning the list of
`(sample index, bar callback also fired)` events of an `advance` call. -/

structure MetronomePosition where
  totalSamples : ℤ
  bar : ℤ
  beat : ℤ
  beatFraction : ℚ
deriving DecidableEq

structure Metronome where
  bpm : ℚ
  beatsPerBar : ℤ
  sampleRate : ℚ
  running : Bool
  samplesPerBeat : ℚ
  samplesPerBar : ℚ
  totalSamples : ℤ
deriving DecidableEq

namespace Metronome

/-- `Metronome::recalculate()`. -/
def recalculate (m : Metronome) : Metronome :=
  let spb := 60 / m.bpm * m.sampleRate
  { m with samplesPerBeat := spb, samplesPerBar := spb * (m.beatsPerBar : ℚ) }

/-- `Metronome::Metronome(bpm, beatsPerBar, sampleRate)`. -/
def mk' (bpm : ℚ) (beatsPerBar : ℤ) (sampleRate : ℚ) : Metronome :=
  recalculate { bpm := bpm, beatsPerBar := beatsPerBar, sampleRate := sampleRate,
                running := true, samplesPerBeat := 0, samplesPerBar := 0,
                totalSamples := 0 }

/-- `Metronome::position()`: bar/beat/fraction derived from `totalSamples_`.
The C++ `int64_t` `/` and `%` truncate toward zero (`Int.tdiv`/`Int.tmod`). -/
def position (m : Metronome) : MetronomePosition :=
  let totalBeats : ℚ := (m.totalSamples : ℚ) / m.samplesPerBeat
  let wholeBeat : ℤ := ⌊totalBeats⌋
  { totalSamples := m.totalSamples,
    bar := wholeBeat.tdiv m.beatsPerBar,
    beat := wholeBeat.tmod m.beatsPerBar,
    beatFraction := totalBeats - (⌊totalBeats⌋ : ℚ) }

/-- Beat number containing a sample (`beatAt` lambda in `Metronome::advance`). -/
def beatAt (m : Metronome) (sample : ℤ) : ℤ :=
  ⌊(sample : ℚ) / m.samplesPerBeat⌋

/-- `Metronome::advance(numSamples)`: advances `totalSamples_` and returns the
events fired.  Each event is the boundary sample index paired with whether the
bar callback also fired there (`pos.beat == 0`). -/
def advance (m : Metronome) (numSamples : ℤ) : Metronome × List (ℤ × Bool) :=
  if !m.running || numSamples ≤ 0 then (m, [])
  else
    let startSample := m.totalSamples
    let endSample := m.totalSamples + numSamples
    let startBeat := m.beatAt startSample
    let endBeat := m.beatAt (endSample - 1)
    let events := (List.range (endBeat + 1 - startBeat).toNat).filterMap fun (i : ℕ) =>
      let b : ℤ := startBeat + 1 + (i : ℤ)
      let boundarySample := roundQ ((b : ℚ) * m.samplesPerBeat)
      if startSample < boundarySample ∧ boundarySample ≤ endSample then
        let pos := position { m with totalSamples := boundarySample }
        some (boundarySample, pos.beat == 0)
      else none
    ({ m with totalSamples := endSample }, events)

/-- `Metronome::reset()`. -/
def reset (m : Metronome) : Metronome :=
  { m with totalSamples := 0 }

/-- `Metronome::nextBeatSample()`. -/
def nextBeatSample (m : Metronome) : ℤ :=
  let totalBeats : ℚ := (m.totalSamples : ℚ) / m.samplesPerBeat
  let nextBeat : ℤ := ⌊totalBeats⌋ + 1
  roundQ ((nextBeat : ℚ) * m.samplesPerBeat)

/-- `Metronome::nextBarSample()`. -/
def nextBarSample (m : Metronome) : ℤ :=
  let totalBars : ℚ := (m.totalSamples : ℚ) / m.samplesPerBar
  let nextBar : ℤ := ⌊totalBars⌋ + 1
  roundQ ((nextBar : ℚ) * m.samplesPerBar)

/-- `Metronome::samplesUntilBoundary(q)`. -/
def samplesUntilBoundary (m : Metronome) (q : Quantize) : ℤ :=
  match q with
  | Quantize.Free => 0
  | Quantize.Beat => m.nextBeatSample - m.totalSamples
  | Quantize.Bar => m.nextBarSample - m.totalSamples

/-- `Metronome::setBpm(bpm)`: clamps to `[1, 999]` and recalculates; in this
derived-position variant nothing else is adjusted. -/
def setBpm (m : Metronome) (bpm : ℚ) : Metronome :=
  recalculate { m with bpm := max 1 (min bpm 999) }

/-- `Metronome::setBeatsPerBar(beats)`: clamps to `[1, 16]` and recalculates. -/
def setBeatsPerBar (m : Metronome) (beats : ℤ) : Metronome :=
  recalculate { m with beatsPerBar := max 1 (min beats 16) }

end Metronome

/-! ## Metronome — accumulator phrasing (the `Metronome.cpp` variant that
tracks `sampleInBeat_` / `currentBeat_` / `currentBar_` explicitly and whose
`setBpm` preserves the fractional position within the beat). -/

structure MetronomeAcc where
  bpm : ℚ
  beatsPerBar : ℤ
  sampleRate : ℚ
  running : Bool
  samplesPerBeat : ℚ
  samplesPerBar : ℚ
  totalSamples : ℤ
  currentBar : ℤ
  currentBeat : ℤ
  sampleInBeat : ℚ
deriving DecidableEq

namespace MetronomeAcc

/-- `Metronome::recalculate()` (accumulator variant). -/
def recalculate (m : MetronomeAcc) : MetronomeAcc :=
  let spb := 60 / m.bpm * m.sampleRate
  { m with samplesPerBeat := spb, samplesPerBar := spb * (m.beatsPerBar : ℚ) }

/-- Accumulator-variant constructor. -/
def mk' (bpm : ℚ) (beatsPerBar : ℤ) (sampleRate : ℚ) : MetronomeAcc :=
  recalculate { bpm := bpm, beatsPerBar := beatsPerBar, sampleRate := sampleRate,
                running := true, samplesPerBeat := 0, samplesPerBar := 0,
                totalSamples := 0, currentBar := 0, currentBeat := 0,
                sampleInBeat := 0 }

/-- One iteration of the per-sample loop in the accumulator `advance`:
returns the new state and the event fired at this sample, if any. -/
def step (m : MetronomeAcc) : MetronomeAcc × Option (ℤ × Bool) :=
  let total := m.totalSamples + 1
  let s := m.sampleInBeat + 1
  if m.samplesPerBeat ≤ s then
    let s' := s - m.samplesPerBeat
    let beat1 := m.currentBeat + 1
    let beat2 := if m.beatsPerBar ≤ beat1 then 0 else beat1
    let bar2 := if m.beatsPerBar ≤ beat1 then m.currentBar + 1 else m.currentBar
    ({ m with totalSamples := total, sampleInBeat := s', currentBeat := beat2,
              currentBar := bar2 },
     some (total, beat2 == 0))
  else
    ({ m with totalSamples := total, sampleInBeat := s }, none)

/-- Iterated per-sample loop of the accumulator `advance`. -/
def advanceGo (m : MetronomeAcc) : ℕ → MetronomeAcc × List (ℤ × Bool)
  | 0 => (m, [])
  | k + 1 =>
    let r := step m
    let rest := advanceGo r.1 k
    (rest.1, r.2.toList ++ rest.2)

/-- Accumulator `Metronome::advance(numSamples)`. -/
def advance (m : MetronomeAcc) (numSamples : ℤ) : MetronomeAcc × List (ℤ × Bool) :=
  if !m.running || numSamples ≤ 0 then (m, [])
  else advanceGo m numSamples.toNat

/-- Accumulator `Metronome::position()`. -/
def position (m : MetronomeAcc) : MetronomePosition :=
  { totalSamples := m.totalSamples, bar := m.currentBar, beat := m.currentBeat,
    beatFraction := m.sampleInBeat / m.samplesPerBeat }

/-- Accumulator `Metronome::setBpm(bpm)`: explicitly preserves the fractional
position within the current beat across the tempo change. -/
def setBpm (m : MetronomeAcc) (bpm : ℚ) : MetronomeAcc :=
  let fraction := if 0 < m.samplesPerBeat then m.sampleInBeat / m.samplesPerBeat else 0
  let m1 := recalculate { m with bpm := max 1 (min bpm 999) }
  { m1 with sampleInBeat := fraction * m1.samplesPerBeat }

/-- Accumulator `Metronome::nextBeatSample()`. -/
def nextBeatSample (m : MetronomeAcc) : ℤ :=
  m.totalSamples + roundQ (m.samplesPerBeat - m.sampleInBeat)

/-- Accumulator `Metronome::nextBarSample()`. -/
def nextBarSample (m : MetronomeAcc) : ℤ :=
  let beatsLeft : ℤ := m.beatsPerBar - m.currentBeat
  m.totalSamples + roundQ ((beatsLeft : ℚ) * m.samplesPerBeat - m.sampleInBeat)

end MetronomeAcc

/-- Run a metronome (derived phrasing) through a sequence of `advance` calls,
accumulating the fired events in order. -/
def runAdvances (m : Metronome) : List ℤ → Metronome × List (ℤ × Bool)
  | [] => (m, [])
  | n :: ns =>
    let r := m.advance n
    let rest := runAdvances r.1 ns
    (rest.1, r.2 ++ rest.2)

/-- Run an accumulator metronome through a sequence of `advance` calls. -/
def runAdvancesAcc (m : MetronomeAcc) : List ℤ → MetronomeAcc × List (ℤ × Bool)
  | [] => (m, [])
  | n :: ns =>
    let r := m.advance n
    let rest := runAdvancesAcc r.1 ns
    (rest.1, r.2 ++ rest.2)


/-- One canonical metronome event at absolute sample `u`, for integral
samples-per-beat `N` (proof infrastructure relating the two `advance`
phrasings): a beat fires iff `N ∣ u`; it is also a bar iff the beat number
`u / N` is a multiple of `bpb`. -/
def canonEvent (N bpb u : ℕ) : Option (ℤ × Bool) :=
  if N ∣ u then some (((u : ℕ) : ℤ), (u / N % bpb == 0)) else none

/-- Canonical events of advancing `n` samples from total sample `t`. -/
def canonEvents (N bpb t n : ℕ) : List (ℤ × Bool) :=
  (List.range n).filterMap fun i => canonEvent N bpb (t + 1 + i)

/-- Invariant tying an accumulator metronome state to total sample `t` with
integral samples-per-beat `N`. -/
def accInv (N bpb t : ℕ) (m : MetronomeAcc) : Prop :=
  m.running = true ∧ m.samplesPerBeat = ((N : ℕ) : ℚ) ∧
  m.beatsPerBar = ((bpb : ℕ) : ℤ) ∧ m.totalSamples = ((t : ℕ) : ℤ) ∧
  m.sampleInBeat = ((t % N : ℕ) : ℚ) ∧
  m.currentBeat = ((t / N % bpb : ℕ) : ℤ) ∧
  m.currentBar = ((t / N / bpb : ℕ) : ℤ)

/-- Invariant tying a derived-position metronome state to total sample `t`
with integral samples-per-beat `N`. -/
def derInv (N bpb t : ℕ) (m : Metronome) : Prop :=
  m.running = true ∧ m.samplesPerBeat = ((N : ℕ) : ℚ) ∧
  m.beatsPerBar = ((bpb : ℕ) : ℤ) ∧ m.totalSamples = ((t : ℕ) : ℤ)

/-! ## LoopEngine (`core/LoopEngine.h` + `core/LoopEngine.cpp`)

The engine state keeps the parts that the command/scheduling/recording paths
touch: the metronome, the per-channel ring buffers with their last
threshold-breach stamps, the loops, the active classic recording and the
runtime settings.  The click generator, MIDI sync, atomics mirroring and the
snapshot mutex carry no logic relevant to the claims and are omitted.  Log
lines pushed through `lastMessage_` / `onMessage` are modelled by `LogMsg`
values, newest first. -/

/-- `struct ActiveRecording` in `core/LoopEngine.h`. -/
structure ActiveRecording where
  loopIndex : ℤ
  buffer : List ℚ
  startSample : ℤ
deriving DecidableEq

/-- Log messages of the engine paths modelled here (standing for the formatted
strings the C++ code builds). -/
inductive LogMsg
  | loopCleared (id : ℤ)
  | noAudioToCapture
  | noLiveInputChannels
  | loopCaptured (id : ℤ) (bars : ℤ) (channels : ℤ)
  | alreadyRecording (idx : ℤ)
  | recordingStarted (id : ℤ)
  | noActiveRecording
  | stopIgnored (idx : ℤ)
  | noAudioRecorded
  | loopRecorded (idx : ℤ)
  | loopMuted (id : ℤ)
  | loopUnmuted (id : ℤ)
  | overdubStarted (id : ℤ)
  | overdubStopped (id : ℤ)
  | reverseToggled (id : ℤ) (nowReversed : Bool)
  | speedSet (id : ℤ) (spd : ℚ)
  | layersUndone (id : ℤ) (count : ℤ) (direction : UndoDirection)
deriving DecidableEq

structure EngineState where
  metronome : Metronome
  inputChannels : List RingBuffer
  lastThresholdBreachSample : List ℤ
  loops : List Loop
  activeRecording : Option ActiveRecording
  lookbackBars : ℤ
  maxLookbackBars : ℤ
  crossfadeSamples : ℤ
  latencyCompensation : ℕ
  liveThreshold : ℚ
  messages : List LogMsg
deriving DecidableEq

namespace EngineState

/-- Replace loop `i` (`loops_[i] = lp`). -/
def setLoop (s : EngineState) (i : ℕ) (lp : Loop) : EngineState :=
  { s with loops := s.loops.set i lp }

/-- Record a log line (`lastMessage_ = ...; callbacks_.onMessage(...)`). -/
def pushMsg (s : EngineState) (msg : LogMsg) : EngineState :=
  { s with messages := msg :: s.messages }

/-- `LoopEngine::fulfillCapture(lp, cap)`. -/
def fulfillCapture (s : EngineState) (i : ℕ) (cap : PendingCapture) : EngineState :=
  match s.loops.get? i with
  | none => s
  | some lp =>
    let lookback0 : ℤ :=
      if cap.lookbackSamples ≤ 0 then
        roundQ ((s.lookbackBars : ℚ) * s.metronome.samplesPerBar)
      else cap.lookbackSamples
    let lookback : ℤ :=
      s.inputChannels.foldl (fun acc ch => min acc (ch.available : ℤ)) lookback0
    if lookback ≤ 0 then s.pushMsg LogMsg.noAudioToCapture
    else
      let captureLen : ℕ := lookback.toNat
      let samplesAgo : ℕ := captureLen + s.latencyCompensation
      let currentSample : ℤ := s.metronome.totalSamples
      let captureStartSample : ℤ := currentSample - (samplesAgo : ℤ)
      let acc0 : List ℚ × ℤ := (List.replicate captureLen 0, 0)
      let accFin := (s.inputChannels.zip s.lastThresholdBreachSample).foldl
        (fun acc chb =>
          if s.liveThreshold ≤ 0 ∨ captureStartSample ≤ chb.2 then
            (List.zipWith (· + ·) acc.1 (chb.1.readFromPast captureLen samplesAgo),
             acc.2 + 1)
          else acc) acc0
      if accFin.2 = 0 then s.pushMsg LogMsg.noLiveInputChannels
      else
        let lp1 := (lp.loadFromCapture accFin.1).setCrossfadeSamples s.crossfadeSamples
        let bars : ℚ := (lookback : ℚ) / s.metronome.samplesPerBar
        let lp2 := Loop.setCurrentBpm
          { lp1 with lengthInBars := bars, recordedBpm := s.metronome.bpm }
          s.metronome.bpm
        ((s.setLoop i lp2).pushMsg (LogMsg.loopCaptured lp.id (roundQ bars) accFin.2))

/-- `LoopEngine::fulfillRecord(lp)`: aborts with a message while any classic
recording is active; otherwise clears the target loop and starts
accumulating. -/
def fulfillRecord (s : EngineState) (i : ℕ) : EngineState :=
  match s.loops.get? i with
  | none => s
  | some lp =>
    match s.activeRecording with
    | some ar => s.pushMsg (LogMsg.alreadyRecording ar.loopIndex)
    | none =>
      let rec0 : ActiveRecording :=
        { loopIndex := lp.id, buffer := [], startSample := s.metronome.totalSamples }
      let s1 := s.setLoop i lp.clear
      let s2 := { s1 with activeRecording := some rec0 }
      s2.pushMsg (LogMsg.recordingStarted lp.id)

/-- `LoopEngine::fulfillStopRecord(lp)`: trims the first
`latencyCompensation_` samples when the buffer is strictly longer than that,
then installs the buffer as the loop's base layer. -/
def fulfillStopRecord (s : EngineState) (i : ℕ) : EngineState :=
  match s.loops.get? i with
  | none => s
  | some lp =>
    match s.activeRecording with
    | none => s.pushMsg LogMsg.noActiveRecording
    | some ar =>
      if lp.id ≠ ar.loopIndex then s.pushMsg (LogMsg.stopIgnored ar.loopIndex)
      else
        let buf : List ℚ :=
          if 0 < s.latencyCompensation ∧ s.latencyCompensation < ar.buffer.length
          then ar.buffer.drop s.latencyCompensation else ar.buffer
        if buf = [] then
          ({ s with activeRecording := none }).pushMsg LogMsg.noAudioRecorded
        else
          let lp1 := (lp.loadFromCapture buf).setCrossfadeSamples s.crossfadeSamples
          let bars : ℚ := (lp1.loopLength : ℚ) / s.metronome.samplesPerBar
          let lp2 := Loop.setCurrentBpm
            { lp1 with lengthInBars := bars, recordedBpm := s.metronome.bpm }
            s.metronome.bpm
          ({ s.setLoop i lp2 with activeRecording := none }).pushMsg
            (LogMsg.loopRecorded ar.loopIndex)

/-- Capture branch of `LoopEngine::flushDueOps` (the slot is reset before the
fulfillment runs). -/
def flushCapture (s : EngineState) (i : ℕ) (currentSample : ℤ) : EngineState :=
  match s.loops.get? i with
  | none => s
  | some lp =>
    match lp.pending.capture with
    | some cap =>
      if cap.executeSample ≤ currentSample then
        fulfillCapture
          (s.setLoop i { lp with pending := { lp.pending with capture := none } }) i cap
      else s
    | none => s

/-- Record start/stop branch of `LoopEngine::flushDueOps`. -/
def flushRecord (s : EngineState) (i : ℕ) (currentSample : ℤ) : EngineState :=
  match s.loops.get? i with
  | none => s
  | some lp =>
    match lp.pending.record with
    | some op =>
      if op.executeSample ≤ currentSample then
        let s1 := s.setLoop i { lp with pending := { lp.pending with record := none } }
        match lp.pending.recordOp with
        | RecordOp.Start => fulfillRecord s1 i
        | RecordOp.Stop => fulfillStopRecord s1 i
      else s
    | none => s

/-- Mute branch of `LoopEngine::flushDueOps`. -/
def flushMute (s : EngineState) (i : ℕ) (currentSample : ℤ) : EngineState :=
  match s.loops.get? i with
  | none => s
  | some lp =>
    match lp.pending.mute with
    | some op =>
      if op.executeSample ≤ currentSample then
        let ps1 := { lp.pending with mute := none }
        match lp.pending.muteOp with
        | MuteOp.Mute =>
          (s.setLoop i (Loop.mute { lp with pending := ps1 })).pushMsg
            (LogMsg.loopMuted lp.id)
        | MuteOp.Unmute =>
          (s.setLoop i (Loop.play { lp with pending := ps1 })).pushMsg
            (LogMsg.loopUnmuted lp.id)
        | MuteOp.Toggle =>
          let lp1 := Loop.toggleMute { lp with pending := ps1 }
          (s.setLoop i lp1).pushMsg
            (if lp1.state = LoopState.Muted then LogMsg.loopMuted lp.id
             else LogMsg.loopUnmuted lp.id)
      else s
    | none => s

/-- Overdub branch of `LoopEngine::flushDueOps`. -/
def flushOverdub (s : EngineState) (i : ℕ) (currentSample : ℤ) : EngineState :=
  match s.loops.get? i with
  | none => s
  | some lp =>
    match lp.pending.overdub with
    | some op =>
      if op.executeSample ≤ currentSample then
        let ps1 := { lp.pending with overdub := none }
        match lp.pending.overdubOp with
        | OverdubOp.Start =>
          (s.setLoop i (Loop.startOverdub { lp with pending := ps1 })).pushMsg
            (LogMsg.overdubStarted lp.id)
        | OverdubOp.Stop =>
          (s.setLoop i (Loop.stopOverdub { lp with pending := ps1 })).pushMsg
            (LogMsg.overdubStopped lp.id)
      else s
    | none => s

/-- Reverse branch of `LoopEngine::flushDueOps`. -/
def flushReverse (s : EngineState) (i : ℕ) (currentSample : ℤ) : EngineState :=
  match s.loops.get? i with
  | none => s
  | some lp =>
    match lp.pending.reverse with
    | some op =>
      if op.executeSample ≤ currentSample then
        let lp1 := Loop.toggleReverse { lp with pending := { lp.pending with reverse := none } }
        (s.setLoop i lp1).pushMsg (LogMsg.reverseToggled lp.id lp1.reversed)
      else s
    | none => s

/-- Speed branch of `LoopEngine::flushDueOps`. -/
def flushSpeed (s : EngineState) (i : ℕ) (currentSample : ℤ) : EngineState :=
  match s.loops.get? i with
  | none => s
  | some lp =>
    match lp.pending.speed with
    | some op =>
      if op.executeSample ≤ currentSample then
        let lp1 := Loop.setSpeed { lp with pending := { lp.pending with speed := none } } op.speed
        (s.setLoop i lp1).pushMsg (LogMsg.speedSet lp.id op.speed)
      else s
    | none => s

/-- Undo/redo branch of `LoopEngine::flushDueOps` (`count` iterations of
`undoLayer` or `redoLayer`). -/
def flushUndo (s : EngineState) (i : ℕ) (currentSample : ℤ) : EngineState :=
  match s.loops.get? i with
  | none => s
  | some lp =>
    match lp.pending.undo with
    | some u =>
      if u.executeSample ≤ currentSample then
        let f := match u.direction with
          | UndoDirection.Undo => Loop.undoLayer
          | UndoDirection.Redo => Loop.redoLayer
        let lp1 := f^[u.count.toNat] { lp with pending := { lp.pending with undo := none } }
        (s.setLoop i lp1).pushMsg (LogMsg.layersUndone lp.id u.count u.direction)
      else s
    | none => s

/-- `LoopEngine::flushDueOps(lp, currentSample)`: a due `clear` executes,
empties every other slot and returns; otherwise the due slots fire in the
fixed order capture, record, mute, overdub, reverse, speed, undo. -/
def flushDueOps (s : EngineState) (i : ℕ) (currentSample : ℤ) : EngineState :=
  match s.loops.get? i with
  | none => s
  | some lp =>
    if (match lp.pending.clear with
        | some c => decide (c.executeSample ≤ currentSample)
        | none => false) then
      let lp1 := { lp.clear with pending := lp.pending.clearAll }
      (s.setLoop i lp1).pushMsg (LogMsg.loopCleared lp.id)
    else
      flushUndo (flushSpeed (flushReverse (flushOverdub (flushMute (flushRecord
        (flushCapture s i currentSample) i currentSample) i currentSample)
          i currentSample) i currentSample) i currentSample) i currentSample

/-- The `CancelPending` case of `LoopEngine::drainCommands` (lines 701-706):
`clearPendingOps()` on every loop and nothing else. -/
def cancelPendingAll (s : EngineState) : EngineState :=
  { s with loops := s.loops.map (fun lp => { lp with pending := lp.pending.clearAll }) }

/-- The recording-accumulation step of `LoopEngine::processBlock` (lines
93-96): while an active classic recording exists, each sample's live mix is
appended to its buffer. -/
def recordAccumulate (s : EngineState) (liveMix : ℚ) : EngineState :=
  match s.activeRecording with
  | some ar => { s with activeRecording := some { ar with buffer := ar.buffer ++ [liveMix] } }
  | none => s

end EngineState

/-! ## Concrete states used as inputs of counterexamples and witnesses -/

/-- A loop slot with engine-assigned id 0 (as after `setId(0)` in the engine
constructor). -/
def loop0 : Loop := { Loop.init with id := 0 }

/-- A loop slot with engine-assigned id 1. -/
def loop1 : Loop := { Loop.init with id := 1 }

/-- A small concrete engine state: two empty loops, one input channel. -/
def engineBase : EngineState :=
  { metronome := Metronome.mk' 120 4 48000,
    inputChannels := [RingBuffer.mk' 8],
    lastThresholdBreachSample := [-(2 ^ 63)],
    loops := [loop0, loop1],
    activeRecording := none,
    lookbackBars := 1, maxLookbackBars := 8, crossfadeSamples := 256,
    latencyCompensation := 0, liveThreshold := 0, messages := [] }

/-- Input of the C5 counterexample: a 2-sample classic recording on loop 0
with latency compensation 2. -/
def engineStopShort : EngineState :=
  { engineBase with
      activeRecording := some { loopIndex := 0, buffer := [1, 2], startSample := 0 },
      latencyCompensation := 2 }

/-- Input of the C5 witness: a 3-sample classic recording on loop 0 with
latency compensation 1. -/
def engineStopTrim : EngineState :=
  { engineBase with
      activeRecording := some { loopIndex := 0, buffer := [1, 2, 3], startSample := 0 },
      latencyCompensation := 1 }

/-- Input of the C6 witness: loop 0 has a due pending `clear` and a due
pending `reverse` at sample 100, and a classic recording is running on
loop 1. -/
def clearDueLoop : Loop :=
  { loop0 with
      state := LoopState.Playing,
      loopLength := 2,
      layers := [{ audio := [3, 4], gain := 1, active := true }],
      pending := { PendingState.init with
                     clear := some { executeSample := 100, quantize := Quantize.Bar },
                     reverse := some { executeSample := 100, quantize := Quantize.Bar } } }

def engineClearDue : EngineState :=
  { engineBase with
      loops := [clearDueLoop, loop1],
      activeRecording := some { loopIndex := 1, buffer := [5], startSample := 7 } }

/-- Input of the C8 witness: a classic recording is in progress on loop 0
while a `Record` fires for loop 1. -/
def engineRecordBusy : EngineState :=
  { engineBase with
      activeRecording := some { loopIndex := 0, buffer := [5, 6], startSample := 3 } }

/-- Input of the C10 witness: pending ops on both loops and a classic
recording in progress on loop 0. -/
def engineCancel : EngineState :=
  { engineBase with
      loops := [{ loop0 with
                    pending := { PendingState.init with
                                   reverse := some { executeSample := 40, quantize := Quantize.Bar } } },
                { loop1 with
                    pending := { PendingState.init with
                                   mute := some { executeSample := 60, quantize := Quantize.Beat } } }],
      activeRecording := some { loopIndex := 0, buffer := [9], startSample := 2 } }

/-- Concrete metronome state with integral samples-per-beat, used as witness
input. -/
def metroTen : Metronome :=
  { bpm := 60, beatsPerBar := 4, sampleRate := 10, running := true,
    samplesPerBeat := 10, samplesPerBar := 40, totalSamples := 7 }


/-! # Theorems -/

set_option allowUnsafeReducibility true

section RatReducible

attribute [local semireducible] Rat.add Rat.mul Rat.inv Rat.sub

/-! ## General helper lemmas -/

/-- Rounding an integer is the identity. -/
theorem roundQ_intCast (k : ℤ) : roundQ (k : ℚ) = k := by
  unfold roundQ
  by_cases h : (0:ℚ) ≤ (k : ℚ)
  · rw [if_pos h, Int.floor_int_add]
    norm_num
  · rw [if_neg h]
    have h2 : (-(k:ℚ)) = ((-k : ℤ) : ℚ) := by push_cast; ring
    rw [h2, Int.floor_int_add]
    norm_num

/-- Casting to `ℤ` preserves the boolean zero test. -/
theorem natCast_beq_zero (x : ℕ) : (((x : ℕ) : ℤ) == 0) = (x == 0) := by
  rw [Bool.eq_iff_iff]
  simp

/-- Floor of a quotient of natural casts is natural division. -/
theorem floorCastDiv (t N : ℕ) :
    ⌊(((t : ℕ) : ℤ) : ℚ) / ((N : ℕ) : ℚ)⌋ = ((t / N : ℕ) : ℤ) := by
  have hcast : (((t : ℕ) : ℤ) : ℚ) = ((t : ℕ) : ℚ) := by push_cast; ring
  rw [hcast]
  exact_mod_cast Rat.floor_natCast_div_natCast t N

/-- Successor division and modulo, split by divisibility. -/
theorem succModDiv (a b : ℕ) (hb : 1 ≤ b) :
    (b ∣ (a + 1) → (a + 1) % b = 0 ∧ (a + 1) / b = a / b + 1 ∧ a % b + 1 = b) ∧
    (¬ b ∣ (a + 1) → (a + 1) % b = a % b + 1 ∧ (a + 1) / b = a / b ∧ a % b + 1 < b) := by
  have e1 := Nat.div_add_mod a b
  have e2 := Nat.div_add_mod (a + 1) b
  have l1 := Nat.mod_lt a (show 0 < b by omega)
  have l2 := Nat.mod_lt (a + 1) (show 0 < b by omega)
  have d := Nat.succ_div a b
  constructor
  · intro hd
    obtain ⟨k, hk⟩ := hd
    have hk1 : 1 ≤ k := by
      rcases Nat.eq_zero_or_pos k with h0 | h1
      · subst h0; simp at hk
      · exact h1
    have hmod : (a + 1) % b = 0 := by rw [hk]; simp
    have hdivN : (a + 1) / b = a / b + 1 := by
      rw [d, if_pos ⟨k, hk⟩]
    have hbk : b * k = b * (k - 1) + b := by
      have hkk : k = (k - 1) + 1 := by omega
      calc b * k = b * ((k - 1) + 1) := by rw [← hkk]
      _ = b * (k - 1) + b := by ring
    have ha : a = b * (k - 1) + (b - 1) := by omega
    have hamod : a % b = b - 1 := by
      rw [ha, Nat.mul_add_mod, Nat.mod_eq_of_lt (by omega)]
    exact ⟨hmod, hdivN, by omega⟩
  · intro hd
    have hdiv : (a + 1) / b = a / b := by rw [d, if_neg hd]; omega
    have hm0 : (a + 1) % b ≠ 0 := fun h0 => hd (Nat.dvd_of_mod_eq_zero h0)
    have e2a : b * (a / b) + (a + 1) % b = a + 1 := by rw [← hdiv]; exact e2
    exact ⟨by omega, hdiv, by omega⟩

/-- The next multiple of `M` after `t` lies in `(t, t + M]`. -/
theorem untilAux (t M : ℕ) (hM : 1 ≤ M) :
    t < (t / M + 1) * M ∧ (t / M + 1) * M ≤ t + M := by
  constructor
  · have h := Nat.lt_div_mul_add (a := t) (b := M) (by omega)
    calc t < t / M * M + M := h
    _ = (t / M + 1) * M := by ring
  · have h := Nat.div_mul_le_self t M
    calc (t / M + 1) * M = t / M * M + M := by ring
    _ ≤ t + M := by omega

/-- With integral samples-per-unit `M`, the derived next-boundary expression
evaluates to the next multiple of `M`. -/
theorem nextAux (t M : ℕ) :
    roundQ (((⌊(((t : ℕ) : ℤ) : ℚ) / ((M : ℕ) : ℚ)⌋ + 1 : ℤ) : ℚ) * ((M : ℕ) : ℚ))
      = (((t / M + 1) * M : ℕ) : ℤ) := by
  rw [floorCastDiv t M]
  have harg : ((((t / M : ℕ) : ℤ) + 1 : ℤ) : ℚ) * ((M : ℕ) : ℚ)
      = ((((t / M + 1) * M : ℕ) : ℤ) : ℚ) := by push_cast; ring
  rw [harg, roundQ_intCast]

/-! ## Claim C9 — `setBpm` clamps to `[1, 999]` and recalculates -/

/-- Claim C9 (confirmed): after `Metronome::setBpm(v)` the tempo is `v`
clamped to the range `[1, 999]`, and `samplesPerBeat` / `samplesPerBar` are
recomputed from the clamped value; `totalSamples` is untouched. -/
theorem setBpm_clamps (m : Metronome) (v : ℚ) :
    (m.setBpm v).bpm = max 1 (min v 999) ∧
    (m.setBpm v).samplesPerBeat = 60 / (max 1 (min v 999)) * m.sampleRate ∧
    (m.setBpm v).samplesPerBar
      = 60 / (max 1 (min v 999)) * m.sampleRate * (m.beatsPerBar : ℚ) ∧
    (m.setBpm v).totalSamples = m.totalSamples :=
  ⟨rfl, rfl, rfl, rfl⟩

/-! ## Claim C1 — `setBpm` and the beat phase -/

/-- Claim C1 (code bug exhibit): in the derived-position `Metronome` that
matches `core/Metronome.h`, `setBpm` does not preserve `beatFraction`.
Starting from `Metronome(120, 4, 4)` advanced by one sample, the fraction is
`1/2`; after `setBpm(60)` it becomes `1/4`.  The repository's accumulator
variant of `Metronome.cpp` preserves it (as the spec requires), shown in the
third conjunct. -/
theorem setBpm_beatFraction_not_preserved :
    (Metronome.position ((Metronome.mk' 120 4 4).advance 1).1).beatFraction = 1/2 ∧
    (Metronome.position
      (Metronome.setBpm ((Metronome.mk' 120 4 4).advance 1).1 60)).beatFraction = 1/4 ∧
    (MetronomeAcc.position
      (MetronomeAcc.setBpm ((MetronomeAcc.mk' 120 4 4).advance 1).1 60)).beatFraction = 1/2 :=
  ⟨by decide, by decide, by decide⟩

/-! ## Claim C2 — undo then redo -/

/-- Helper: `deactivateFirstActive` skips an all-inactive prefix. -/
theorem deactivateFirstActive_append (ys zs : List LoopLayer)
    (h : ∀ l ∈ ys, l.active = false) :
    Loop.deactivateFirstActive (ys ++ zs) = ys ++ Loop.deactivateFirstActive zs := by
  induction ys with
  | nil => simp
  | cons a t ih =>
    have ha := h a (by simp)
    simp only [List.cons_append, Loop.deactivateFirstActive, ha]
    simp [ih (fun l hl => h l (by simp [hl]))]

/-- Helper: `activateFirstInactive` skips an all-active prefix. -/
theorem activateFirstInactive_append (ys zs : List LoopLayer)
    (h : ∀ l ∈ ys, l.active = true) :
    Loop.activateFirstInactive (ys ++ zs) = ys ++ Loop.activateFirstInactive zs := by
  induction ys with
  | nil => simp
  | cons a t ih =>
    have ha := h a (by simp)
    simp only [List.cons_append, Loop.activateFirstInactive, ha]
    simp [ih (fun l hl => h l (by simp [hl]))]

/-- Claim C2 (counterexample): after `load; startOverdub; undoLayer;
startOverdub` the active flags are `[true, false, true]`; an `undoLayer`
followed by `redoLayer` yields `[true, true, false]`, so the set of active
layers is not restored. -/
theorem undo_redo_after_overdub_differs :
    Loop.activeFlags
        (Loop.startOverdub (Loop.undoLayer (Loop.startOverdub
          (Loop.loadFromCapture Loop.init [1]))))
      = [true, false, true] ∧
    Loop.activeFlags
        (Loop.redoLayer (Loop.undoLayer
          (Loop.startOverdub (Loop.undoLayer (Loop.startOverdub
            (Loop.loadFromCapture Loop.init [1]))))))
      = [true, true, false] ∧
    Loop.activeFlags
        (Loop.redoLayer (Loop.undoLayer
          (Loop.startOverdub (Loop.undoLayer (Loop.startOverdub
            (Loop.loadFromCapture Loop.init [1]))))))
      ≠ Loop.activeFlags
        (Loop.startOverdub (Loop.undoLayer (Loop.startOverdub
          (Loop.loadFromCapture Loop.init [1])))) :=
  ⟨by decide, by decide, by decide⟩

/-- Claim C2 (amended): `undoLayer` followed by `redoLayer` restores the loop
exactly when some non-base layer is active and every inactive layer lies after
the most recent active layer (`layers = base :: A ++ x :: B` with `A` and `x`
active and `B` inactive). -/
theorem undoLayer_redoLayer_of_prefix (lp : Loop) (base x : LoopLayer)
    (A B : List LoopLayer)
    (hlayers : lp.layers = base :: (A ++ x :: B))
    (hA : ∀ l ∈ A, l.active = true) (hx : x.active = true)
    (hB : ∀ l ∈ B, l.active = false) :
    Loop.redoLayer (Loop.undoLayer lp) = lp := by
  have h1 : Loop.deactivateFirstActive ((A ++ x :: B).reverse)
      = B.reverse ++ { x with active := false } :: A.reverse := by
    have hrev : (A ++ x :: B).reverse = B.reverse ++ (x :: A.reverse) := by
      simp [List.reverse_append]
    rw [hrev, deactivateFirstActive_append _ _
      (by intro l hl; exact hB l (by simpa using hl))]
    simp [Loop.deactivateFirstActive, hx]
  have h3 : Loop.activateFirstInactive (A ++ { x with active := false } :: B)
      = A ++ x :: B := by
    rw [activateFirstInactive_append _ _ hA]
    simp only [Loop.activateFirstInactive, Bool.not_false]
    cases x
    simp_all
  simp only [Loop.undoLayer, hlayers]
  rw [h1]
  have h2 : (B.reverse ++ { x with active := false } :: A.reverse).reverse
      = A ++ { x with active := false } :: B := by
    simp [List.reverse_append]
  rw [h2]
  simp only [Loop.redoLayer]
  rw [h3, ← hlayers]

/-- Claim C2 witness: a freshly overdubbed loop (`base` plus one active
overdub layer) satisfies the amended hypotheses, and undo-then-redo restores
it. -/
theorem undoLayer_redoLayer_witness :
    (Loop.startOverdub (Loop.loadFromCapture Loop.init [1])).layers
        = { audio := [1], gain := 1, active := true }
          :: ([] ++ { audio := [0], gain := 1, active := true } :: []) ∧
    Loop.redoLayer (Loop.undoLayer (Loop.startOverdub
        (Loop.loadFromCapture Loop.init [1])))
      = Loop.startOverdub (Loop.loadFromCapture Loop.init [1]) :=
  ⟨by decide,
   undoLayer_redoLayer_of_prefix _ { audio := [1], gain := 1, active := true }
     { audio := [0], gain := 1, active := true } [] [] (by decide)
     (by simp) (by decide) (by simp)⟩


/-! ## Claim C7 — ring buffer write / readMostRecent round trip -/

/-- Helper: the read start position after a write equals the old cursor. -/
theorem readStartAux (wp n cap : ℕ) (hwp : wp < cap) (hncap : n ≤ cap) :
    ((wp + n) % cap + 2 * cap - n) % cap = wp := by
  by_cases hlt : wp + n < cap
  · rw [Nat.mod_eq_of_lt hlt]
    have h1 : wp + n + 2 * cap - n = wp + 2 * cap := by omega
    rw [h1, Nat.add_mul_mod_self_right, Nat.mod_eq_of_lt hwp]
  · have h0 : (wp + n) % cap = wp + n - cap := by
      rw [Nat.mod_eq_sub_mod (by omega), Nat.mod_eq_of_lt (by omega)]
    rw [h0]
    have h1 : wp + n - cap + 2 * cap - n = wp + cap := by omega
    rw [h1, Nat.add_mod_right, Nat.mod_eq_of_lt hwp]

/-- Claim C7 (confirmed): for every well-formed ring buffer (any prior write
history) and every `x` with `x.length ≤ capacity`, `write x` followed by
`readMostRecent x.length` returns exactly `x`. -/
theorem write_readMostRecent (rb : RingBuffer) (x : List ℚ)
    (hwf : rb.wf) (hlen : x.length ≤ rb.capacity) :
    (rb.write x).readMostRecent x.length = x := by
  obtain ⟨hcap, hwp⟩ := hwf
  have hbuflen : rb.buffer.length = rb.capacity := rfl
  rcases Nat.eq_zero_or_pos x.length with hn0 | hnpos
  · have hx : x = [] := List.eq_nil_of_length_eq_zero hn0
    subst hx
    simp [RingBuffer.write, RingBuffer.readMostRecent, RingBuffer.readFromPast]
  · by_cases hbig : rb.capacity ≤ x.length
    · -- full-capacity write
      have hncap : x.length = rb.capacity := le_antisymm hlen hbig
      have hwrite : rb.write x =
          { buffer := x, writePos := 0, totalWritten := rb.totalWritten + x.length } := by
        unfold RingBuffer.write
        rw [if_neg (by omega), if_pos (by omega)]
        simp [hncap]
      rw [hwrite]
      unfold RingBuffer.readMostRecent RingBuffer.readFromPast
      rw [if_neg (by omega)]
      have hcap' : RingBuffer.capacity
          { buffer := x, writePos := 0, totalWritten := rb.totalWritten + x.length } = x.length := by
        simp [RingBuffer.capacity]
      have havail : RingBuffer.available
          { buffer := x, writePos := 0, totalWritten := rb.totalWritten + x.length } = x.length := by
        simp [RingBuffer.available, hcap']
      simp only [hcap', havail]
      rw [min_self]
      have h2 : (0 + 2 * x.length - x.length) % x.length = 0 := by
        have hh : 0 + 2 * x.length - x.length = x.length := by omega
        rw [hh, Nat.mod_self]
      rw [h2]
      simp
    · push_neg at hbig
      by_cases hfit : x.length ≤ rb.capacity - rb.writePos
      · -- no wrap
        have hwrite : rb.write x =
            { buffer := rb.buffer.take rb.writePos ++ x ++ rb.buffer.drop (rb.writePos + x.length),
              writePos := (rb.writePos + x.length) % rb.capacity,
              totalWritten := rb.totalWritten + x.length } := by
          unfold RingBuffer.write
          rw [if_neg (by omega), if_neg (by omega)]
          simp only [if_pos hfit]
        have htakelen : (rb.buffer.take rb.writePos).length = rb.writePos := by
          simp [hbuflen]; omega
        have hlenB : (rb.buffer.take rb.writePos ++ x ++ rb.buffer.drop (rb.writePos + x.length)).length
            = rb.capacity := by
          simp [hbuflen]; omega
        rw [hwrite]
        unfold RingBuffer.readMostRecent RingBuffer.readFromPast
        rw [if_neg (by omega)]
        have hcap' : RingBuffer.capacity
            { buffer := rb.buffer.take rb.writePos ++ x ++ rb.buffer.drop (rb.writePos + x.length),
              writePos := (rb.writePos + x.length) % rb.capacity,
              totalWritten := rb.totalWritten + x.length } = rb.capacity := hlenB
        have havail : x.length ≤ RingBuffer.available
            { buffer := rb.buffer.take rb.writePos ++ x ++ rb.buffer.drop (rb.writePos + x.length),
              writePos := (rb.writePos + x.length) % rb.capacity,
              totalWritten := rb.totalWritten + x.length } := by
          unfold RingBuffer.available
          rw [hcap']
          simp
          omega
        simp only [hcap']
        rw [min_eq_left havail]
        rw [readStartAux _ _ _ hwp hlen]
        rw [Nat.sub_self, min_self]
        rw [if_pos (by omega)]
        have hdrop : (rb.buffer.take rb.writePos ++ x ++ rb.buffer.drop (rb.writePos + x.length)).drop rb.writePos
            = x ++ rb.buffer.drop (rb.writePos + x.length) := by
          rw [List.append_assoc, List.drop_append_eq_append_drop, htakelen, Nat.sub_self,
            List.drop_zero, List.drop_eq_nil_of_le (le_of_eq htakelen), List.nil_append]
        rw [hdrop]
        rw [List.take_append_eq_append_take, Nat.sub_self, List.take_zero, List.take_length,
          List.append_nil]
        simp
      · -- wrap-around write
        push_neg at hfit
        have hwrite : rb.write x =
            { buffer := x.drop (rb.capacity - rb.writePos) ++
                ((rb.buffer.take rb.writePos ++ x.take (rb.capacity - rb.writePos)).drop
                  (x.length - (rb.capacity - rb.writePos))),
              writePos := (rb.writePos + x.length) % rb.capacity,
              totalWritten := rb.totalWritten + x.length } := by
          unfold RingBuffer.write
          rw [if_neg (by omega), if_neg (by omega)]
          simp only [if_neg (by omega : ¬ x.length ≤ rb.capacity - rb.writePos)]
        set s := rb.capacity - rb.writePos with hs
        set rem := x.length - s with hrem
        have hremwp : rem < rb.writePos := by omega
        have hdroplen : (x.drop s).length = rem := by simp [hrem]
        have htakelen : (rb.buffer.take rb.writePos).length = rb.writePos := by
          simp [hbuflen]; omega
        have htakeslen : (x.take s).length = s := by simp; omega
        have hlenB : (x.drop s ++ ((rb.buffer.take rb.writePos ++ x.take s).drop rem)).length
            = rb.capacity := by
          simp [hbuflen]; omega
        rw [hwrite]
        unfold RingBuffer.readMostRecent RingBuffer.readFromPast
        rw [if_neg (by omega)]
        have hcap' : RingBuffer.capacity
            { buffer := x.drop s ++ ((rb.buffer.take rb.writePos ++ x.take s).drop rem),
              writePos := (rb.writePos + x.length) % rb.capacity,
              totalWritten := rb.totalWritten + x.length } = rb.capacity := hlenB
        have havail : x.length ≤ RingBuffer.available
            { buffer := x.drop s ++ ((rb.buffer.take rb.writePos ++ x.take s).drop rem),
              writePos := (rb.writePos + x.length) % rb.capacity,
              totalWritten := rb.totalWritten + x.length } := by
          unfold RingBuffer.available
          rw [hcap']
          simp
          omega
        simp only [hcap']
        rw [min_eq_left havail]
        rw [readStartAux _ _ _ hwp hlen]
        rw [Nat.sub_self, min_self]
        rw [if_neg (by omega)]
        have hdrop : (x.drop s ++ ((rb.buffer.take rb.writePos ++ x.take s).drop rem)).drop rb.writePos
            = x.take s := by
          rw [List.drop_append_eq_append_drop, hdroplen]
          rw [List.drop_eq_nil_of_le (by omega), List.nil_append, List.drop_drop]
          have h2 : rem + (rb.writePos - rem) = rb.writePos := by omega
          rw [h2, List.drop_append_eq_append_drop, htakelen, Nat.sub_self, List.drop_zero,
            List.drop_eq_nil_of_le (le_of_eq htakelen), List.nil_append]
        have htk : (x.drop s ++ ((rb.buffer.take rb.writePos ++ x.take s).drop rem)).take
            (x.length - s) = x.drop s := by
          rw [List.take_append_eq_append_take, hdroplen, ← hrem, Nat.sub_self, List.take_zero,
            List.append_nil, List.take_of_length_le (le_of_eq hdroplen)]
        rw [hdrop, htk]
        simp [List.take_append_drop]

/-! ## Claim C4 — samplesUntilBoundary bounds -/

/-- Claim C4 (amended): for a metronome whose `samplesPerBeat` is a positive
integer `N` (and `samplesPerBar = N * beatsPerBar`), `samplesUntilBoundary`
is strictly positive and at most `samplesPerBeat` (resp. `samplesPerBar`) —
the claimed strict `<` fails exactly at boundaries, where the distance to the
next boundary is the full period. -/
theorem samplesUntilBoundary_bounds (m : Metronome) (N bpb t : ℕ)
    (hN : 1 ≤ N) (hb : 1 ≤ bpb)
    (hspb : m.samplesPerBeat = ((N : ℕ) : ℚ))
    (hspB : m.samplesPerBar = ((N * bpb : ℕ) : ℚ))
    (ht : m.totalSamples = ((t : ℕ) : ℤ)) :
    (0 < m.samplesUntilBoundary Quantize.Beat ∧
      ((m.samplesUntilBoundary Quantize.Beat : ℤ) : ℚ) ≤ m.samplesPerBeat) ∧
    (0 < m.samplesUntilBoundary Quantize.Bar ∧
      ((m.samplesUntilBoundary Quantize.Bar : ℤ) : ℚ) ≤ m.samplesPerBar) := by
  have hM : 1 ≤ N * bpb := Nat.one_le_iff_ne_zero.mpr (by positivity)
  have hBeat : m.samplesUntilBoundary Quantize.Beat
      = (((t / N + 1) * N : ℕ) : ℤ) - ((t : ℕ) : ℤ) := by
    show m.nextBeatSample - m.totalSamples = _
    unfold Metronome.nextBeatSample
    rw [hspb, ht, nextAux t N]
  have hBar : m.samplesUntilBoundary Quantize.Bar
      = (((t / (N * bpb) + 1) * (N * bpb) : ℕ) : ℤ) - ((t : ℕ) : ℤ) := by
    show m.nextBarSample - m.totalSamples = _
    unfold Metronome.nextBarSample
    rw [hspB, ht, nextAux t (N * bpb)]
  obtain ⟨hb1, hb2⟩ := untilAux t N hN
  obtain ⟨hB1, hB2⟩ := untilAux t (N * bpb) hM
  set K := (t / N + 1) * N with hK
  set L := (t / (N * bpb) + 1) * (N * bpb) with hL
  refine ⟨⟨?_, ?_⟩, ⟨?_, ?_⟩⟩
  · rw [hBeat]; omega
  · rw [hBeat, hspb]
    exact_mod_cast (show ((K : ℕ) : ℤ) - ((t : ℕ) : ℤ) ≤ ((N : ℕ) : ℤ) by omega)
  · rw [hBar]; omega
  · rw [hBar, hspB]
    exact_mod_cast (show ((L : ℕ) : ℤ) - ((t : ℕ) : ℤ) ≤ ((N * bpb : ℕ) : ℤ) by omega)

/-- Claim C4 counterexample: at reset the distance to the next beat equals
`samplesPerBeat` (not strictly less), and with `samplesPerBeat = 52/5` the
rounded boundary schedule can even make `samplesUntilBoundary` non-positive
right after a fired beat. -/
theorem samplesUntilBoundary_strict_fails :
    (¬ (((Metronome.mk' 60 4 10).samplesUntilBoundary Quantize.Beat : ℤ) : ℚ)
        < (Metronome.mk' 60 4 10).samplesPerBeat) ∧
    ((Metronome.mk' 60 4 (52/5)).advance 10).2 = [(10, true)] ∧
    ¬ (0 < (((Metronome.mk' 60 4 (52/5)).advance 10).1).samplesUntilBoundary Quantize.Beat) := by
  refine ⟨by decide, by decide, by decide⟩

/-- Claim C4 witness: the amended bounds evaluated at `metroTen`
(`samplesPerBeat = 10`, mid-beat position 7). -/
theorem samplesUntilBoundary_bounds_witness :
    (0 < metroTen.samplesUntilBoundary Quantize.Beat ∧
      ((metroTen.samplesUntilBoundary Quantize.Beat : ℤ) : ℚ) ≤ metroTen.samplesPerBeat) ∧
    (0 < metroTen.samplesUntilBoundary Quantize.Bar ∧
      ((metroTen.samplesUntilBoundary Quantize.Bar : ℤ) : ℚ) ≤ metroTen.samplesPerBar) :=
  samplesUntilBoundary_bounds metroTen 10 4 7 (by decide) (by decide) (by decide) (by decide)
    (by decide)


/-! ## Claim C3 — accumulator vs derived metronome phrasings -/

/-- Accumulator step matches the canonical event at sample `t + 1`. -/
theorem stepAcc_canon (N bpb t : ℕ) (hN : 1 ≤ N) (hb : 1 ≤ bpb)
    (m : MetronomeAcc) (hm : accInv N bpb t m) :
    accInv N bpb (t + 1) m.step.1 ∧ m.step.2 = canonEvent N bpb (t + 1) := by
  obtain ⟨hrun, hspb, hbpb, htot, hsib, hbeat, hbar⟩ := hm
  have hmlt := Nat.mod_lt t (show 0 < N by omega)
  have hql := Nat.mod_lt (t / N) (show 0 < bpb by omega)
  unfold MetronomeAcc.step canonEvent
  rw [hspb, hsib, hbeat, hbar, htot, hbpb]
  by_cases hd : N ∣ (t + 1)
  · obtain ⟨hm0, hdivN, hmodN⟩ := (succModDiv t N hN).1 hd
    have hcond : ((N : ℕ) : ℚ) ≤ ((t % N : ℕ) : ℚ) + 1 := by
      exact_mod_cast (by omega : (N : ℕ) ≤ t % N + 1)
    have hsib1 : ((t % N : ℕ) : ℚ) + 1 - ((N : ℕ) : ℚ) = (((t + 1) % N : ℕ) : ℚ) := by
      have hc : ((t % N : ℕ) : ℚ) + 1 = ((N : ℕ) : ℚ) := by exact_mod_cast hmodN
      rw [hm0, hc]
      push_cast
      ring
    by_cases hd2 : bpb ∣ (t / N + 1)
    · obtain ⟨hm02, hdiv2, hmod2⟩ := (succModDiv (t / N) bpb hb).1 hd2
      have hcond2 : ((bpb : ℕ) : ℤ) ≤ ((t / N % bpb : ℕ) : ℤ) + 1 := by
        exact_mod_cast (by omega : (bpb : ℕ) ≤ t / N % bpb + 1)
      simp only [if_pos hcond, if_pos hcond2, if_pos hd]
      refine ⟨⟨hrun, rfl, rfl, ?_, ?_, ?_, ?_⟩, ?_⟩
      · show ((t : ℕ) : ℤ) + 1 = ((t + 1 : ℕ) : ℤ)
        push_cast; ring
      · exact hsib1
      · show (0 : ℤ) = (((t + 1) / N % bpb : ℕ) : ℤ)
        rw [hdivN, hm02]
        norm_num
      · show ((t / N / bpb : ℕ) : ℤ) + 1 = (((t + 1) / N / bpb : ℕ) : ℤ)
        rw [hdivN, hdiv2]
        push_cast; ring
      · show some (((t : ℕ) : ℤ) + 1, ((0 : ℤ) == 0)) = some (((t + 1 : ℕ) : ℤ), ((t + 1) / N % bpb == 0))
        rw [hdivN, hm02]
        norm_num
    · obtain ⟨hm02, hdiv2, hmod2⟩ := (succModDiv (t / N) bpb hb).2 hd2
      have hcond2 : ¬ ((bpb : ℕ) : ℤ) ≤ ((t / N % bpb : ℕ) : ℤ) + 1 := by
        exact_mod_cast (by omega : ¬ (bpb : ℕ) ≤ t / N % bpb + 1)
      simp only [if_pos hcond, if_neg hcond2, if_pos hd]
      refine ⟨⟨hrun, rfl, rfl, ?_, ?_, ?_, ?_⟩, ?_⟩
      · show ((t : ℕ) : ℤ) + 1 = ((t + 1 : ℕ) : ℤ)
        push_cast; ring
      · exact hsib1
      · show ((t / N % bpb : ℕ) : ℤ) + 1 = (((t + 1) / N % bpb : ℕ) : ℤ)
        rw [hdivN, hm02]
        push_cast; ring
      · show ((t / N / bpb : ℕ) : ℤ) = (((t + 1) / N / bpb : ℕ) : ℤ)
        rw [hdivN, hdiv2]
      · show some (((t : ℕ) : ℤ) + 1, (((t / N % bpb : ℕ) : ℤ) + 1 == 0))
            = some (((t + 1 : ℕ) : ℤ), ((t + 1) / N % bpb == 0))
        rw [hdivN, hm02]
        have h1 : ((t : ℕ) : ℤ) + 1 = ((t + 1 : ℕ) : ℤ) := by push_cast; ring
        have h2 : (((t / N % bpb : ℕ) : ℤ) + 1 == 0) = ((t / N % bpb + 1 : ℕ) == (0 : ℕ)) := by
          rw [Bool.eq_iff_iff]
          constructor
          · intro h
            exact absurd (by exact_mod_cast beq_iff_eq.mp h : (t / N % bpb + 1 : ℕ) = 0) (by omega)
          · intro h
            exact absurd (beq_iff_eq.mp h) (by omega)
        rw [h1, h2]
  · obtain ⟨hm0, hdivN, hmodN⟩ := (succModDiv t N hN).2 hd
    have hcond : ¬ ((N : ℕ) : ℚ) ≤ ((t % N : ℕ) : ℚ) + 1 := by
      exact_mod_cast (by omega : ¬ (N : ℕ) ≤ t % N + 1)
    simp only [if_neg hcond, if_neg hd]
    refine ⟨⟨hrun, rfl, rfl, ?_, ?_, ?_, ?_⟩, trivial⟩
    · show ((t : ℕ) : ℤ) + 1 = ((t + 1 : ℕ) : ℤ)
      push_cast; ring
    · show ((t % N : ℕ) : ℚ) + 1 = (((t + 1) % N : ℕ) : ℚ)
      rw [hm0]; push_cast; ring
    · show ((t / N % bpb : ℕ) : ℤ) = (((t + 1) / N % bpb : ℕ) : ℤ)
      rw [hdivN]
    · show ((t / N / bpb : ℕ) : ℤ) = (((t + 1) / N / bpb : ℕ) : ℤ)
      rw [hdivN]


theorem canonEvents_zero (N bpb t : ℕ) : canonEvents N bpb t 0 = [] := by
  simp [canonEvents]

theorem canonEvents_succ_left (N bpb t k : ℕ) :
    canonEvents N bpb t (k + 1)
      = (canonEvent N bpb (t + 1)).toList ++ canonEvents N bpb (t + 1) k := by
  unfold canonEvents
  rw [List.range_succ_eq_map, List.filterMap_cons, List.filterMap_map]
  have h0 : t + 1 + 0 = t + 1 := by omega
  have hfun : ((fun i => canonEvent N bpb (t + 1 + i)) ∘ Nat.succ)
      = fun i => canonEvent N bpb (t + 1 + 1 + i) := by
    funext i
    simp only [Function.comp_apply]
    congr 1
    omega
  rw [h0, hfun]
  cases hc : canonEvent N bpb (t + 1) <;> simp [hc]

theorem canonEvents_succ_right (N bpb t k : ℕ) :
    canonEvents N bpb t (k + 1)
      = canonEvents N bpb t k ++ (canonEvent N bpb (t + 1 + k)).toList := by
  unfold canonEvents
  rw [List.range_succ, List.filterMap_append]
  cases hc : canonEvent N bpb (t + 1 + k) <;> simp [hc]

theorem advanceGoAcc_canon (N bpb : ℕ) (hN : 1 ≤ N) (hb : 1 ≤ bpb) :
    ∀ (k t : ℕ) (m : MetronomeAcc), accInv N bpb t m →
      accInv N bpb (t + k) (MetronomeAcc.advanceGo m k).1 ∧
      (MetronomeAcc.advanceGo m k).2 = canonEvents N bpb t k := by
  intro k
  induction k with
  | zero =>
    intro t m hm
    exact ⟨hm, (canonEvents_zero N bpb t).symm⟩
  | succ k ih =>
    intro t m hm
    obtain ⟨h1, h2⟩ := stepAcc_canon N bpb t hN hb m hm
    obtain ⟨h3, h4⟩ := ih (t + 1) m.step.1 h1
    unfold MetronomeAcc.advanceGo
    constructor
    · show accInv N bpb (t + (k + 1)) (m.step.1.advanceGo k).1
      rw [show t + (k + 1) = t + 1 + k by omega]
      exact h3
    · show m.step.2.toList ++ (m.step.1.advanceGo k).2
        = canonEvents N bpb t (k + 1)
      rw [canonEvents_succ_left, h2, h4]

theorem advanceAcc_canon (N bpb : ℕ) (hN : 1 ≤ N) (hb : 1 ≤ bpb) (t : ℕ)
    (m : MetronomeAcc) (hm : accInv N bpb t m) (n : ℤ) :
    accInv N bpb (t + n.toNat) (m.advance n).1 ∧
    (m.advance n).2 = canonEvents N bpb t n.toNat := by
  have hrun : m.running = true := hm.1
  unfold MetronomeAcc.advance
  rcases le_or_lt n 0 with hn | hn
  · have ht0 : n.toNat = 0 := Int.toNat_of_nonpos hn
    simp only [hrun, Bool.not_true, Bool.false_or, decide_eq_true_eq, if_pos hn, ht0]
    exact ⟨hm, (canonEvents_zero N bpb t).symm⟩
  · simp only [hrun, Bool.not_true, Bool.false_or, decide_eq_true_eq,
      if_neg (by omega : ¬ n ≤ 0)]
    exact advanceGoAcc_canon N bpb hN hb n.toNat t m hm

theorem filterMap_range_all {α : Type} (g : ℕ → α) (c : ℕ) :
    ∀ cnt, cnt ≤ c → (List.range cnt).filterMap (fun i => if i < c then some (g i) else none)
      = (List.range cnt).map g := by
  intro cnt
  induction cnt with
  | zero => intro _; simp
  | succ k ih =>
    intro h
    rw [List.range_succ, List.filterMap_append, List.map_append, ih (by omega)]
    simp [if_pos (show k < c by omega)]

theorem filterMap_range_cut {α : Type} (g : ℕ → α) :
    ∀ cnt c, c ≤ cnt → (List.range cnt).filterMap (fun i => if i < c then some (g i) else none)
      = (List.range c).map g := by
  intro cnt
  induction cnt with
  | zero =>
    intro c hc
    have : c = 0 := by omega
    subst this
    simp
  | succ k ih =>
    intro c hc
    rcases Nat.lt_or_ge c (k + 1) with hlt | hge
    · rw [List.range_succ, List.filterMap_append, ih c (by omega)]
      simp [if_neg (show ¬ k < c by omega)]
    · have hceq : c = k + 1 := by omega
      subst hceq
      rw [filterMap_range_all g (k + 1) (k + 1) (le_refl _)]

theorem canonEvents_eq_map (N bpb : ℕ) (hN : 1 ≤ N) (t : ℕ) :
    ∀ k, canonEvents N bpb t k
      = (List.range ((t + k) / N - t / N)).map
          (fun j => ((((t / N + 1 + j) * N : ℕ) : ℤ), ((t / N + 1 + j) % bpb == 0))) := by
  intro k
  induction k with
  | zero => simp [canonEvents]
  | succ k ih =>
    have hdm : t / N ≤ (t + k) / N := Nat.div_le_div_right (by omega)
    rw [canonEvents_succ_right, ih]
    by_cases hd : N ∣ (t + k + 1)
    · obtain ⟨hm0, hdiv, hmod⟩ := (succModDiv (t + k) N hN).1 hd
      have hc1 : (t + (k + 1)) / N - t / N = ((t + k) / N - t / N) + 1 := by
        rw [show t + (k + 1) = (t + k) + 1 by omega, hdiv]
        omega
      rw [hc1, List.range_succ, List.map_append]
      congr 1
      have harg : t + 1 + k = t + k + 1 := by omega
      rw [harg]
      unfold canonEvent
      rw [if_pos hd]
      have hq : t / N + 1 + ((t + k) / N - t / N) = (t + k + 1) / N := by
        rw [hdiv]; omega
      have hqN : (t + k + 1) / N * N = t + k + 1 := Nat.div_mul_cancel hd
      simp only [Option.toList_some, List.map_cons, List.map_nil]
      rw [hq, hqN]
    · obtain ⟨hm0, hdiv, hmod⟩ := (succModDiv (t + k) N hN).2 hd
      have hc1 : (t + (k + 1)) / N - t / N = (t + k) / N - t / N := by
        rw [show t + (k + 1) = (t + k) + 1 by omega, hdiv]
      have harg : t + 1 + k = t + k + 1 := by omega
      rw [hc1, harg]
      unfold canonEvent
      rw [if_neg hd]
      simp


theorem advanceD_canon (N bpb : ℕ) (hN : 1 ≤ N) (_hb : 1 ≤ bpb) (t : ℕ) (m : Metronome)
    (hm : derInv N bpb t m) (n : ℤ) :
    derInv N bpb (t + n.toNat) (m.advance n).1 ∧
    (m.advance n).2 = canonEvents N bpb t n.toNat := by
  obtain ⟨hrun, hspb, hbpb, htot⟩ := hm
  unfold Metronome.advance
  rcases le_or_lt n 0 with hn | hn
  · have ht0 : n.toNat = 0 := Int.toNat_of_nonpos hn
    simp only [hrun, Bool.not_true, Bool.false_or, decide_eq_true_eq, if_pos hn, ht0]
    exact ⟨⟨hrun, hspb, hbpb, htot⟩, (canonEvents_zero N bpb t).symm⟩
  · have hk1 : 1 ≤ n.toNat := by omega
    set k := n.toNat with hk
    have hnk : n = (k : ℤ) := by omega
    simp only [hrun, Bool.not_true, Bool.false_or, decide_eq_true_eq,
      if_neg (by omega : ¬ n ≤ 0)]
    constructor
    · refine ⟨rfl, hspb, hbpb, ?_⟩
      show m.totalSamples + n = ((t + k : ℕ) : ℤ)
      rw [htot]; push_cast; omega
    · have hsb : Metronome.beatAt m m.totalSamples = ((t / N : ℕ) : ℤ) := by
        unfold Metronome.beatAt
        rw [htot, hspb]
        exact floorCastDiv t N
      have heb : Metronome.beatAt m (m.totalSamples + n - 1)
          = (((t + k - 1) / N : ℕ) : ℤ) := by
        unfold Metronome.beatAt
        rw [htot, hspb]
        have harg : ((t : ℕ) : ℤ) + n - 1 = (((t + k - 1 : ℕ)) : ℤ) := by omega
        rw [harg]
        exact floorCastDiv (t + k - 1) N
      rw [hsb, heb]
      have hdm : t / N ≤ (t + k - 1) / N := Nat.div_le_div_right (by omega)
      have hdm2 : t / N ≤ (t + k) / N := Nat.div_le_div_right (by omega)
      have hcnt : ((((t + k - 1) / N : ℕ) : ℤ) + 1 - ((t / N : ℕ) : ℤ)).toNat
          = (t + k - 1) / N + 1 - t / N := by omega
      rw [hcnt]
      set c := (t + k) / N - t / N with hc
      have hcle : c ≤ (t + k - 1) / N + 1 - t / N := by
        have h5 := Nat.succ_div (t + k - 1) N
        have h6 : t + k - 1 + 1 = t + k := by omega
        rw [h6] at h5
        by_cases hdd : N ∣ t + k
        · rw [if_pos hdd] at h5; omega
        · rw [if_neg hdd] at h5; omega
      rw [htot, hspb, hbpb]
      rw [canonEvents_eq_map N bpb hN t k,
        ← filterMap_range_cut _ ((t + k - 1) / N + 1 - t / N) ((t + k) / N - t / N) hcle]
      apply List.filterMap_congr
      intro i _
      have hb' : (((t / N : ℕ) : ℤ) + 1 + (i : ℤ)) = (((t / N + 1 + i : ℕ)) : ℤ) := by
        push_cast; ring
      rw [hb']
      have hbs : roundQ (((((t / N + 1 + i : ℕ)) : ℤ) : ℚ) * ((N : ℕ) : ℚ))
          = (((t / N + 1 + i) * N : ℕ) : ℤ) := by
        have hcc : ((((t / N + 1 + i : ℕ)) : ℤ) : ℚ) * ((N : ℕ) : ℚ)
            = ((((t / N + 1 + i) * N : ℕ) : ℤ) : ℚ) := by push_cast; ring
        rw [hcc, roundQ_intCast]
      rw [hbs]
      have hlt : ((t : ℕ) : ℤ) < (((t / N + 1 + i) * N : ℕ) : ℤ) := by
        have h7 : t < (t / N + 1) * N := (untilAux t N hN).1
        have h8 : (t / N + 1) * N ≤ (t / N + 1 + i) * N := Nat.mul_le_mul_right N (by omega)
        exact_mod_cast lt_of_lt_of_le h7 h8
      have hle : ((((t / N + 1 + i) * N : ℕ) : ℤ) ≤ ((t : ℕ) : ℤ) + n) ↔ i < (t + k) / N - t / N := by
        have h9 : ((((t / N + 1 + i) * N : ℕ) : ℤ) ≤ ((t : ℕ) : ℤ) + n)
            ↔ (t / N + 1 + i) * N ≤ t + k := by
          rw [hnk]
          constructor
          · intro h; exact_mod_cast h
          · intro h; exact_mod_cast h
        rw [h9, ← Nat.le_div_iff_mul_le (show 0 < N by omega)]
        omega
      by_cases hcase : i < (t + k) / N - t / N
      · rw [if_pos ⟨hlt, hle.mpr hcase⟩, if_pos hcase]
        have hfl2 : ⌊(((((t / N + 1 + i) * N : ℕ) : ℤ) : ℚ) / ((N : ℕ) : ℚ))⌋
            = ((t / N + 1 + i : ℕ) : ℤ) := by
          rw [floorCastDiv ((t / N + 1 + i) * N) N, Nat.mul_div_cancel _ (show 0 < N by omega)]
        simp only [Metronome.position]
        rw [hfl2]
        have htm : (((t / N + 1 + i : ℕ) : ℤ)).tmod ((bpb : ℕ) : ℤ)
            = (((t / N + 1 + i) % bpb : ℕ) : ℤ) := (Int.ofNat_tmod _ _).symm
        rw [htm, natCast_beq_zero]
      · rw [if_neg (fun hcon => hcase (hle.mp hcon.2)), if_neg hcase]



/-- Both phrasings produce the canonical events along any sequence of
`advance` calls, hence identical event lists. -/
theorem runAdvances_agree (N bpb : ℕ) (hN : 1 ≤ N) (hb : 1 ≤ bpb) :
    ∀ (L : List ℤ) (t : ℕ) (ma : MetronomeAcc) (md : Metronome),
      accInv N bpb t ma → derInv N bpb t md →
      (runAdvancesAcc ma L).2 = (runAdvances md L).2 := by
  intro L
  induction L with
  | nil =>
    intro t ma md hma hmd
    rfl
  | cons n ns ih =>
    intro t ma md hma hmd
    obtain ⟨ha1, ha2⟩ := advanceAcc_canon N bpb hN hb t ma hma n
    obtain ⟨hd1, hd2⟩ := advanceD_canon N bpb hN hb t md hmd n
    show ((ma.advance n).2 ++ (runAdvancesAcc (ma.advance n).1 ns).2)
        = ((md.advance n).2 ++ (runAdvances (md.advance n).1 ns).2)
    rw [ha2, hd2, ih (t + n.toNat) _ _ ha1 hd1]

/-- Claim C3 (amended): when `60 / bpm * sampleRate` is a positive integer
number of samples per beat, the accumulator phrasing and the
derived-position phrasing fire beat and bar callbacks at exactly the same
sample indices, for every beats-per-bar and every sequence of `advance`
calls from reset. -/
theorem metronome_phrasings_agree (bpm sr : ℚ) (N bpb : ℕ)
    (hN : 1 ≤ N) (hb : 1 ≤ bpb) (hspb : 60 / bpm * sr = ((N : ℕ) : ℚ))
    (L : List ℤ) :
    (runAdvancesAcc (MetronomeAcc.mk' bpm (bpb : ℤ) sr) L).2
      = (runAdvances (Metronome.mk' bpm (bpb : ℤ) sr) L).2 := by
  apply runAdvances_agree N bpb hN hb L 0
  · refine ⟨rfl, hspb, rfl, rfl, ?_, ?_, ?_⟩
    · show (0 : ℚ) = ((0 % N : ℕ) : ℚ)
      simp
    · show (0 : ℤ) = ((0 / N % bpb : ℕ) : ℤ)
      simp
    · show (0 : ℤ) = ((0 / N / bpb : ℕ) : ℤ)
      simp
  · exact ⟨rfl, hspb, rfl, rfl⟩

/-- Claim C3 (counterexample): at `samplesPerBeat = 52/5` (bpm 60, sample
rate 52/5) and one `advance(12)` from reset, the derived phrasing fires at
sample 10 (and also as a bar), while the accumulator phrasing fires at
sample 11 (not a bar): the boundary sequences differ. -/
theorem metronome_phrasings_differ :
    ((Metronome.mk' 60 4 (52/5)).advance 12).2 = [(10, true)] ∧
    ((MetronomeAcc.mk' 60 4 (52/5)).advance 12).2 = [(11, false)] ∧
    (runAdvancesAcc (MetronomeAcc.mk' 60 4 (52/5)) [12]).2
      ≠ (runAdvances (Metronome.mk' 60 4 (52/5)) [12]).2 :=
  ⟨by decide, by decide, by decide⟩

/-- Claim C3 witness: at bpm 120 and sample rate 8 (4 samples per beat),
the two phrasings agree along the advances `[5, 9, 3]`. -/
theorem metronome_phrasings_agree_witness :
    60 / (120 : ℚ) * 8 = ((4 : ℕ) : ℚ) ∧
    (runAdvancesAcc (MetronomeAcc.mk' 120 ((4 : ℕ) : ℤ) 8) [5, 9, 3]).2
      = (runAdvances (Metronome.mk' 120 ((4 : ℕ) : ℤ) 8) [5, 9, 3]).2 :=
  ⟨by decide, metronome_phrasings_agree 120 8 4 4 (by decide) (by decide) (by decide) [5, 9, 3]⟩

/-! ## Engine claims (C5, C6, C8, C10) and the C7 witness -/

/-- Projections of `Loop.setCurrentBpm`: the mode transitions never touch the
layers, the state or the loop length. -/
theorem setCurrentBpm_frame (lp : Loop) (b : ℚ) :
    (lp.setCurrentBpm b).layers = lp.layers ∧
    (lp.setCurrentBpm b).state = lp.state ∧
    (lp.setCurrentBpm b).loopLength = lp.loopLength := by
  simp only [Loop.setCurrentBpm]
  split
  · exact ⟨rfl, rfl, rfl⟩
  · split
    · exact ⟨rfl, rfl, rfl⟩
    · exact ⟨rfl, rfl, rfl⟩

/-- The recording-accumulation step of `processBlock` appends the live mix to
the active recording's buffer. -/
theorem recordAccumulate_activeRecording (s : EngineState) (ar : ActiveRecording)
    (h : s.activeRecording = some ar) (mix : ℚ) :
    (s.recordAccumulate mix).activeRecording
      = some { ar with buffer := ar.buffer ++ [mix] } := by
  unfold EngineState.recordAccumulate
  rw [h]

/-- Claim C8: a `Record` fulfillment for loop `i` while a classic recording is
already active on a different loop only logs `alreadyRecording`: every loop is
unchanged, the active recording (index, buffer, start) is unchanged, and the
per-sample accumulation keeps appending to its buffer. -/
theorem record_while_recording_aborts (s : EngineState) (i : ℕ) (lp : Loop)
    (ar : ActiveRecording)
    (hlp : s.loops.get? i = some lp)
    (har : s.activeRecording = some ar)
    (_hdiff : ar.loopIndex ≠ lp.id) :
    s.fulfillRecord i = s.pushMsg (LogMsg.alreadyRecording ar.loopIndex) ∧
    (s.fulfillRecord i).loops = s.loops ∧
    (s.fulfillRecord i).activeRecording = some ar ∧
    ∀ mix : ℚ, ((s.fulfillRecord i).recordAccumulate mix).activeRecording
        = some { ar with buffer := ar.buffer ++ [mix] } := by
  have hf : s.fulfillRecord i = s.pushMsg (LogMsg.alreadyRecording ar.loopIndex) := by
    unfold EngineState.fulfillRecord
    rw [hlp, har]
  have har2 : (s.fulfillRecord i).activeRecording = some ar := by
    rw [hf]; exact har
  exact ⟨hf, by rw [hf]; rfl, har2,
    fun mix => recordAccumulate_activeRecording _ ar har2 mix⟩

/-- Claim C8 witness: in `engineRecordBusy` a recording is active on loop 0
while `Record` fires for loop 1; the engine only logs and the accumulation
continues. -/
theorem record_while_recording_aborts_witness :
    ((0 : ℤ) ≠ loop1.id) ∧
    engineRecordBusy.fulfillRecord 1
      = engineRecordBusy.pushMsg (LogMsg.alreadyRecording 0) ∧
    (engineRecordBusy.fulfillRecord 1).loops = engineRecordBusy.loops ∧
    (engineRecordBusy.fulfillRecord 1).activeRecording
      = some { loopIndex := 0, buffer := [5, 6], startSample := 3 } ∧
    ∀ mix : ℚ,
      ((engineRecordBusy.fulfillRecord 1).recordAccumulate mix).activeRecording
        = some { loopIndex := 0, buffer := [5, 6] ++ [mix], startSample := 3 } :=
  ⟨by decide,
   record_while_recording_aborts engineRecordBusy 1 loop1
     { loopIndex := 0, buffer := [5, 6], startSample := 3 } rfl rfl (by decide)⟩

/-- Claim C10: draining `CancelPending` empties every loop's pending slots and
does nothing else observable here: the active classic recording is unchanged
and the per-sample accumulation keeps appending to its buffer. -/
theorem cancelPending_frame (s : EngineState) (ar : ActiveRecording)
    (har : s.activeRecording = some ar) :
    s.cancelPendingAll.activeRecording = some ar ∧
    s.cancelPendingAll.loops
      = s.loops.map (fun lp => { lp with pending := lp.pending.clearAll }) ∧
    (∀ lp, lp ∈ s.cancelPendingAll.loops → lp.pending.hasAny = false) ∧
    ∀ mix : ℚ, (s.cancelPendingAll.recordAccumulate mix).activeRecording
        = some { ar with buffer := ar.buffer ++ [mix] } := by
  refine ⟨har, rfl, ?_, ?_⟩
  · intro lp hlp
    simp only [EngineState.cancelPendingAll, List.mem_map] at hlp
    obtain ⟨lp0, -, rfl⟩ := hlp
    rfl
  · intro mix
    exact recordAccumulate_activeRecording s.cancelPendingAll ar har mix

/-- Claim C10 witness: cancelling pending operations in `engineCancel` keeps
the recording on loop 0 accumulating while both loops' slots empty. -/
theorem cancelPending_frame_witness :
    engineCancel.activeRecording
      = some { loopIndex := 0, buffer := [9], startSample := 2 } ∧
    engineCancel.cancelPendingAll.activeRecording
      = some { loopIndex := 0, buffer := [9], startSample := 2 } ∧
    engineCancel.cancelPendingAll.loops
      = engineCancel.loops.map (fun lp => { lp with pending := lp.pending.clearAll }) ∧
    (∀ lp, lp ∈ engineCancel.cancelPendingAll.loops → lp.pending.hasAny = false) ∧
    ∀ mix : ℚ,
      (engineCancel.cancelPendingAll.recordAccumulate mix).activeRecording
        = some { loopIndex := 0, buffer := [9] ++ [mix], startSample := 2 } :=
  ⟨rfl, cancelPending_frame engineCancel
     { loopIndex := 0, buffer := [9], startSample := 2 } rfl⟩

/-- Claim C6: when the pending `clear` of loop `i` is due, `flushDueOps`
clears the loop to `Empty`, empties every other pending slot of that loop and
only logs `loopCleared`: no other pending operation fires, and the recording
state, input channels and all other loops are untouched. -/
theorem due_clear_preempts (s : EngineState) (i : ℕ) (lp : Loop)
    (c : PendingTimedOp) (cur : ℤ)
    (hlp : s.loops.get? i = some lp)
    (hclear : lp.pending.clear = some c)
    (hdue : c.executeSample ≤ cur) :
    s.flushDueOps i cur
      = (s.setLoop i { lp.clear with pending := lp.pending.clearAll }).pushMsg
          (LogMsg.loopCleared lp.id) ∧
    ((s.flushDueOps i cur).loops.get? i).map Loop.state = some LoopState.Empty ∧
    ((s.flushDueOps i cur).loops.get? i).map (fun l => l.pending.hasAny)
      = some false ∧
    (s.flushDueOps i cur).activeRecording = s.activeRecording ∧
    (s.flushDueOps i cur).inputChannels = s.inputChannels ∧
    ∀ j, j ≠ i → (s.flushDueOps i cur).loops.get? j = s.loops.get? j := by
  have hi : i < s.loops.length := (List.get?_eq_some.mp hlp).1
  have hf : s.flushDueOps i cur
      = (s.setLoop i { lp.clear with pending := lp.pending.clearAll }).pushMsg
          (LogMsg.loopCleared lp.id) := by
    simp only [EngineState.flushDueOps, hlp]
    rw [hclear, if_pos (decide_eq_true hdue)]
  have hgi : (s.flushDueOps i cur).loops.get? i
      = some { lp.clear with pending := lp.pending.clearAll } := by
    rw [hf]
    show (s.loops.set i _).get? i = _
    rw [List.get?_eq_getElem?]
    simp [List.getElem?_set_self, hi]
  refine ⟨hf, ?_, ?_, by rw [hf]; rfl, by rw [hf]; rfl, ?_⟩
  · rw [hgi]; rfl
  · rw [hgi]; rfl
  · intro j hj
    rw [hf]
    show (s.loops.set i _).get? j = s.loops.get? j
    simp [List.get?_eq_getElem?, List.getElem?_set_ne (fun hh => hj hh.symm)]

/-- Claim C6 witness: in `engineClearDue` both the `clear` and the `reverse`
slots of loop 0 are due at sample 100; the flush clears the loop, empties its
slots and fires nothing else. -/
theorem due_clear_preempts_witness :
    engineClearDue.loops.get? 0 = some clearDueLoop ∧
    clearDueLoop.pending.clear
      = some { executeSample := 100, quantize := Quantize.Bar } ∧
    ((100 : ℤ) ≤ 100) ∧
    engineClearDue.flushDueOps 0 100
      = (engineClearDue.setLoop 0
          { clearDueLoop.clear with pending := clearDueLoop.pending.clearAll }).pushMsg
          (LogMsg.loopCleared clearDueLoop.id) :=
  ⟨rfl, rfl, by decide,
   (due_clear_preempts engineClearDue 0 clearDueLoop
      { executeSample := 100, quantize := Quantize.Bar } 100 rfl rfl (by decide)).1⟩

/-- Claim C5 counterexample: in `engineStopShort` the recording has n = 2
samples and the latency compensation is L = 2, yet the installed base layer is
the full untrimmed buffer `[1, 2]` (the code skips the trim unless
`L < n`), not a layer of `n - L = 0` samples. -/
theorem stopRecord_trim_cex :
    ((engineStopShort.fulfillStopRecord 0).loops.get? 0).map
        (fun l => l.layers.map LoopLayer.audio) = some [[1, 2]] ∧
    ((engineStopShort.fulfillStopRecord 0).loops.get? 0).map
        (fun l => l.layers.map LoopLayer.audio) ≠ some [[]] := by
  constructor <;> decide

/-- Claim C5 (amended): when a `StopRecord` targets the recorded loop and the
latency compensation `L` is strictly smaller than the `n` accumulated samples,
the first `L` samples are trimmed: the loop's sole base layer becomes
`buffer.drop L` (its `n - L` samples starting with the `(L+1)`-th recorded
sample), the loop plays with `loopLength = n - L`, and the active-recording
state is cleared.  (For `L ≥ n` the code installs the whole untrimmed
buffer.) -/
theorem stopRecord_trims_head (s : EngineState) (i : ℕ) (lp : Loop)
    (ar : ActiveRecording)
    (hlp : s.loops.get? i = some lp)
    (har : s.activeRecording = some ar)
    (hid : lp.id = ar.loopIndex)
    (hL : s.latencyCompensation < ar.buffer.length) :
    ((s.fulfillStopRecord i).loops.get? i).map (fun l => l.layers.map LoopLayer.audio)
      = some [ar.buffer.drop s.latencyCompensation] ∧
    ((s.fulfillStopRecord i).loops.get? i).map Loop.state = some LoopState.Playing ∧
    ((s.fulfillStopRecord i).loops.get? i).map Loop.loopLength
      = some ((ar.buffer.length : ℤ) - (s.latencyCompensation : ℤ)) ∧
    (s.fulfillStopRecord i).activeRecording = none := by
  have hi : i < s.loops.length := (List.get?_eq_some.mp hlp).1
  have hbuf : (if 0 < s.latencyCompensation ∧ s.latencyCompensation < ar.buffer.length
      then ar.buffer.drop s.latencyCompensation else ar.buffer)
      = ar.buffer.drop s.latencyCompensation := by
    by_cases h0 : 0 < s.latencyCompensation
    · rw [if_pos ⟨h0, hL⟩]
    · rw [if_neg (fun hc => h0 hc.1)]
      have hz : s.latencyCompensation = 0 := by omega
      rw [hz, List.drop_zero]
  have hlen : (ar.buffer.drop s.latencyCompensation).length
      = ar.buffer.length - s.latencyCompensation := List.length_drop _ _
  have hne : ar.buffer.drop s.latencyCompensation ≠ [] := by
    intro hnil
    rw [hnil] at hlen
    simp at hlen
    omega
  have hf : s.fulfillStopRecord i
      = ({ s.setLoop i (Loop.setCurrentBpm
            { (lp.loadFromCapture (ar.buffer.drop s.latencyCompensation)).setCrossfadeSamples
                s.crossfadeSamples with
              lengthInBars :=
                ((((lp.loadFromCapture
                      (ar.buffer.drop s.latencyCompensation)).setCrossfadeSamples
                        s.crossfadeSamples).loopLength : ℚ) / s.metronome.samplesPerBar),
              recordedBpm := s.metronome.bpm }
            s.metronome.bpm) with activeRecording := none }).pushMsg
          (LogMsg.loopRecorded ar.loopIndex) := by
    simp only [EngineState.fulfillStopRecord, hlp, har]
    rw [if_neg (not_not_intro hid), hbuf, if_neg hne]
  have hgi : (s.fulfillStopRecord i).loops.get? i
      = some (Loop.setCurrentBpm
            { (lp.loadFromCapture (ar.buffer.drop s.latencyCompensation)).setCrossfadeSamples
                s.crossfadeSamples with
              lengthInBars :=
                ((((lp.loadFromCapture
                      (ar.buffer.drop s.latencyCompensation)).setCrossfadeSamples
                        s.crossfadeSamples).loopLength : ℚ) / s.metronome.samplesPerBar),
              recordedBpm := s.metronome.bpm }
            s.metronome.bpm) := by
    rw [hf]
    show (s.loops.set i _).get? i = _
    rw [List.get?_eq_getElem?]
    simp [List.getElem?_set_self, hi]
  refine ⟨?_, ?_, ?_, by rw [hf]; rfl⟩
  · rw [hgi, Option.map_some', (setCurrentBpm_frame _ _).1]; rfl
  · rw [hgi, Option.map_some', (setCurrentBpm_frame _ _).2.1]; rfl
  · rw [hgi, Option.map_some', (setCurrentBpm_frame _ _).2.2]
    show some ((ar.buffer.drop s.latencyCompensation).length : ℤ) = _
    rw [hlen]
    congr 1
    omega

/-- Claim C5 witness: stopping the 3-sample recording of `engineStopTrim` with
latency compensation 1 installs the trimmed 2-sample layer `[2, 3]`. -/
theorem stopRecord_trims_head_witness :
    engineStopTrim.latencyCompensation < ([1, 2, 3] : List ℚ).length ∧
    ((engineStopTrim.fulfillStopRecord 0).loops.get? 0).map
        (fun l => l.layers.map LoopLayer.audio)
      = some [([1, 2, 3] : List ℚ).drop engineStopTrim.latencyCompensation] :=
  ⟨by decide,
   (stopRecord_trims_head engineStopTrim 0 loop0
      { loopIndex := 0, buffer := [1, 2, 3], startSample := 0 } rfl rfl rfl
      (by decide)).1⟩

/-- Claim C7 witness: on a capacity-4 ring that already holds a prior write of
`[1, 2]`, writing `[7, 8, 9]` and reading back the 3 most recent samples
returns `[7, 8, 9]`. -/
theorem write_readMostRecent_witness :
    ((RingBuffer.mk' 4).write [1, 2]).wf ∧
    ([7, 8, 9] : List ℚ).length ≤ ((RingBuffer.mk' 4).write [1, 2]).capacity ∧
    (((RingBuffer.mk' 4).write [1, 2]).write [7, 8, 9]).readMostRecent
        ([7, 8, 9] : List ℚ).length = [7, 8, 9] :=
  ⟨⟨by decide, by decide⟩, by decide,
   write_readMostRecent ((RingBuffer.mk' 4).write [1, 2]) [7, 8, 9]
     ⟨by decide, by decide⟩ (by decide)⟩

end RatReducible

end Retrospect
